import Mathlib

/-!
# A verification development for `03+04/matrix.c`

A shallow embedding of the dense matrix routines of `matrix.c`.

* A `double` is an abstract scalar: the class `Dbl` lists the operations the
  source uses (`0.0`, `1`, `+`, `-`, `*`, `!=`) and assumes no law about them,
  so every general theorem holds for IEEE arithmetic as for any other
  interpretation.  Laws that a statement needs (such as `x != x` being false,
  which fails for NaN) appear as explicit hypotheses.
* `int` is a 32 bit signed integer; an arithmetic overflow is undefined
  behaviour.  `size_t` is 64 bits wide.
* The heap is a list of blocks.  A pointer is `none` (NULL) or `some a`, the
  base address of block `a`.  A block is `none` once it has been freed.
* Every operation returns an `Option`; `none` stands for undefined
  behaviour of the C program (out-of-bounds access, use of a dead block,
  signed overflow, overlapping `memcpy`).
* `malloc` has two answers.  `Heap.malloc` is the allocation that succeeds;
  `Heap.malloc_ans` takes the allocator's answer as a parameter and yields
  NULL when it fails.  The source never tests the result of `malloc`:
  `mat_alloc_ans` is `mat_alloc` with that answer as a parameter, and
  `mat_alloc` is its run for a successful allocation, which is the run that
  `mat_copy` and the scratch matrix of `mat_mul` are modelled on (a failed
  allocation there is followed by a write through NULL, which is undefined).
-/

namespace MatrixC

/-! ## Scalars -/

/-- Operations of the C type `double` used by `matrix.c`.  No law is assumed. -/
class Dbl (α : Type) where
  /-- The literal `0.0`. -/
  zero : α
  /-- The literal `1` converted to `double`. -/
  one : α
  /-- The operator `+`. -/
  add : α → α → α
  /-- The operator `-`. -/
  sub : α → α → α
  /-- The operator `*`. -/
  mul : α → α → α
  /-- The operator `!=`. -/
  ne : α → α → Bool

/-- Exact integer scalars: an interpretation without rounding and without NaN. -/
instance instDblInt : Dbl Int where
  zero := 0
  one := 1
  add := fun a b => a + b
  sub := fun a b => a - b
  mul := fun a b => a * b
  ne := fun a b => decide (a ≠ b)

/-- Integer scalars extended with a NaN, written `none`: arithmetic propagates
NaN and `!=` is true as soon as one side is NaN, as for IEEE 754 doubles. -/
instance instDblNaN : Dbl (Option Int) where
  zero := some 0
  one := some 1
  add := fun a b => a.bind (fun x => b.map (fun y => x + y))
  sub := fun a b => a.bind (fun x => b.map (fun y => x - y))
  mul := fun a b => a.bind (fun x => b.map (fun y => x * y))
  ne := fun a b =>
    match a, b with
    | some x, some y => decide (x ≠ y)
    | _, _ => true

/-! ## Machine integers -/

/-- Largest value of a C `int`. -/
def INT_MAX : Int := 2147483647

/-- Smallest value of a C `int`. -/
def INT_MIN : Int := -2147483648

/-- Signed multiplication `a * b` on `int`; overflow is undefined. -/
def int_mul (a b : Int) : Option Int :=
  if INT_MIN ≤ a * b ∧ a * b ≤ INT_MAX then some (a * b) else none

/-- Signed addition `a + b` on `int`; overflow is undefined. -/
def int_add (a b : Int) : Option Int :=
  if INT_MIN ≤ a + b ∧ a + b ≤ INT_MAX then some (a + b) else none

/-! ## Memory -/

/-- The heap: `blocks[a]` is the content of the block at address `a`, `none`
once freed.  `fresh a k` is the indeterminate value that `malloc` leaves in
cell `k` of a block it creates at address `a`. -/
structure Heap (α : Type) where
  blocks : List (Option (List α))
  fresh : Nat → Nat → α

/-- The live block a pointer designates, if any. -/
def Heap.block {α : Type} (h : Heap α) (p : Option Nat) : Option (List α) :=
  match p with
  | none => none
  | some a => (h.blocks[a]?).getD none

/-- Replace the block at address `a`. -/
def Heap.setBlock {α : Type} (h : Heap α) (a : Nat) (b : Option (List α)) : Heap α :=
  { h with blocks := h.blocks.set a b }

/-- The read `p[k]`. -/
def Heap.read {α : Type} (h : Heap α) (p : Option Nat) (k : Int) : Option α :=
  if k < 0 then none else (h.block p).bind (fun l => l[k.toNat]?)

/-- The write `p[k] = v`. -/
def Heap.write {α : Type} (h : Heap α) (p : Option Nat) (k : Int) (v : α) : Option (Heap α) :=
  match p, h.block p with
  | some a, some l =>
    if 0 ≤ k ∧ k.toNat < l.length then some (h.setBlock a (some (l.set k.toNat v))) else none
  | _, _ => none

/-- The call `malloc(n * sizeof(double))` when the allocation succeeds: a new
block of `n` indeterminate cells at a new address.  The answer NULL of a
failed allocation is that of `Heap.malloc_ans`. -/
def Heap.malloc {α : Type} (h : Heap α) (n : Nat) : Heap α × Nat :=
  ({ h with blocks := h.blocks ++ [some ((List.range n).map (h.fresh h.blocks.length))] },
    h.blocks.length)

/-- The call `malloc(n * sizeof(double))`, the allocator's answer being given:
when `ok`, the new block of `Heap.malloc` and a pointer to it; otherwise NULL
and the heap as it was. -/
def Heap.malloc_ans {α : Type} (h : Heap α) (n : Nat) (ok : Bool) : Heap α × Option Nat :=
  if ok then ((h.malloc n).1, some (h.malloc n).2) else (h, none)

/-- The call `free(p)`: nothing for NULL; undefined unless `p` is live. -/
def Heap.free {α : Type} (h : Heap α) (p : Option Nat) : Option (Heap α) :=
  match p with
  | none => some h
  | some a =>
    match h.block (some a) with
    | some _ => some (h.setBlock a none)
    | none => none

/-- The call `memcpy(d, s, n * sizeof(double))`, `n` being the value of an
`int` expression: both regions must lie in live blocks and must not overlap. -/
def Heap.memcpy {α : Type} (h : Heap α) (d s : Option Nat) (n : Int) : Option (Heap α) :=
  match d, h.block d, h.block s with
  | some a, some ld, some ls =>
    if 0 ≤ n ∧ n.toNat ≤ ld.length ∧ n.toNat ≤ ls.length ∧ (d ≠ s ∨ n = 0) then
      some (h.setBlock a (some (ls.take n.toNat ++ ld.drop n.toNat)))
    else none
  | _, _, _ => none

/-! ## Control -/

/-- The loop `for (int i = lo; i < lo + cnt; i++) body`, threading a state. -/
def forRange {σ : Type} (body : Nat → σ → Option σ) : Nat → Nat → σ → Option σ
  | _, 0, s => some s
  | lo, cnt + 1, s => (body lo s).bind (forRange body (lo + 1) cnt)

/-- The loop `for (int i = 0; i < n; i++) body`. -/
def for_loop {σ : Type} (n : Int) (body : Nat → σ → Option σ) (s : σ) : Option σ :=
  forRange body 0 n.toNat s

/-- A read-only loop whose body may `return r` from the enclosing function:
the body yields `some (some r)` to return, `some none` to go on. -/
def forRangeRet {ρ : Type} (body : Nat → Option (Option ρ)) : Nat → Nat → Option (Option ρ)
  | _, 0 => some none
  | lo, cnt + 1 =>
    match body lo with
    | none => none
    | some (some r) => some (some r)
    | some none => forRangeRet body (lo + 1) cnt

/-- The loop `for (int i = 0; i < n; i++) body` with early return. -/
def for_loop_ret {ρ : Type} (n : Int) (body : Nat → Option (Option ρ)) : Option (Option ρ) :=
  forRangeRet body 0 n.toNat

/-! ## The matrix type and the routines of `matrix.c` -/

/-- The struct `matrix`. -/
structure matrix where
  rows : Int
  cols : Int
  elems : Option Nat
deriving DecidableEq

/-- The offset `(i) * (m).cols + (j)` computed by the macro `mat_elem`. -/
def mat_index (m : matrix) (i j : Int) : Option Int :=
  (int_mul i m.cols).bind (fun p => int_add p j)

/-- The macro `mat_elem(m, i, j)` used as a value. -/
def mat_elem {α : Type} (h : Heap α) (m : matrix) (i j : Int) : Option α :=
  (mat_index m i j).bind (fun k => h.read m.elems k)

/-- The macro `mat_elem(m, i, j)` used as the target of an assignment. -/
def mat_elem_set {α : Type} (h : Heap α) (m : matrix) (i j : Int) (v : α) : Option (Heap α) :=
  (mat_index m i j).bind (fun k => h.write m.elems k v)

/-- The function `mat_same_size`. -/
def mat_same_size (mat1 mat2 : matrix) : Bool :=
  if mat1.cols ≠ mat2.cols ∨ mat1.rows ≠ mat2.rows then false else true

/-- The function `mat_alloc` in a run whose allocation succeeds: returns the
result, the struct `*mat` and the heap.  The function for either answer of
`malloc` is `mat_alloc_ans`. -/
def mat_alloc {α : Type} (h : Heap α) (mat : matrix) (rows cols : Int) :
    Option (Bool × matrix × Heap α) :=
  if rows ≤ 0 ∨ cols ≤ 0 then some (false, mat, h)
  else
    (int_mul rows cols).bind (fun n =>
      some (true, { rows := rows, cols := cols, elems := some (h.malloc n.toNat).2 },
        (h.malloc n.toNat).1))

/-- The function `mat_alloc`, the answer of its `malloc` being given by `ok`:
the result of `malloc` is stored in `mat->elems` without a test and the
function returns true, also when that result is NULL. -/
def mat_alloc_ans {α : Type} (ok : Bool) (h : Heap α) (mat : matrix) (rows cols : Int) :
    Option (Bool × matrix × Heap α) :=
  if rows ≤ 0 ∨ cols ≤ 0 then some (false, mat, h)
  else
    (int_mul rows cols).bind (fun n =>
      some (true, { rows := rows, cols := cols, elems := (h.malloc_ans n.toNat ok).2 },
        (h.malloc_ans n.toNat ok).1))

/-- The function `mat_free`: returns the struct `*mat` and the heap. -/
def mat_free {α : Type} (h : Heap α) (mat : matrix) : Option (matrix × Heap α) :=
  (h.free mat.elems).map (fun h1 => ({ rows := 0, cols := 0, elems := none }, h1))

/-- The function `mat_copy`: returns the result, the struct `*dst` and the heap. -/
def mat_copy {α : Type} (h : Heap α) (dst src : matrix) : Option (Bool × matrix × Heap α) :=
  if !mat_same_size dst src then some (false, dst, h)
  else
    match mat_alloc h dst src.rows src.cols with
    | none => none
    | some (false, dst1, h1) => some (false, dst1, h1)
    | some (true, dst1, h1) =>
      (int_mul dst1.rows dst1.cols).bind (fun n =>
        (h1.memcpy dst1.elems src.elems n).map (fun h2 => (true, dst1, h2)))

/-- The body `res->elems[i] = f(mat1.elems[i], mat2.elems[i])` of an elementwise loop. -/
def zip_body {α : Type} (f : α → α → α) (res mat1 mat2 : matrix) (i : Nat) (h : Heap α) :
    Option (Heap α) :=
  (h.read mat1.elems i).bind (fun a =>
    (h.read mat2.elems i).bind (fun b => h.write res.elems i (f a b)))

/-- The function `mat_add`. -/
def mat_add {α : Type} [Dbl α] (h : Heap α) (res mat1 mat2 : matrix) : Option (Bool × Heap α) :=
  if !mat_same_size res mat1 ∨ !mat_same_size mat1 mat2 ∨ !mat_same_size mat2 res then
    some (false, h)
  else
    (int_mul res.rows res.cols).bind (fun n =>
      (for_loop n (zip_body Dbl.add res mat1 mat2) h).map (fun h1 => (true, h1)))

/-- The function `mat_sub`. -/
def mat_sub {α : Type} [Dbl α] (h : Heap α) (res mat1 mat2 : matrix) : Option (Bool × Heap α) :=
  if !mat_same_size res mat1 ∨ !mat_same_size mat1 mat2 ∨ !mat_same_size mat2 res then
    some (false, h)
  else
    (int_mul res.rows res.cols).bind (fun n =>
      (for_loop n (zip_body Dbl.sub res mat1 mat2) h).map (fun h1 => (true, h1)))

/-- The statement `mat_elem(tmp, i, j) += mat_elem(mat1, i, k) * mat_elem(mat2, k, j)`. -/
def mul_step {α : Type} [Dbl α] (tmp mat1 mat2 : matrix) (i j k : Nat) (h : Heap α) :
    Option (Heap α) :=
  (mat_elem h tmp i j).bind (fun acc =>
    (mat_elem h mat1 i k).bind (fun a =>
      (mat_elem h mat2 k j).bind (fun b =>
        mat_elem_set h tmp i j (Dbl.add acc (Dbl.mul a b)))))

/-- The body of the `j` loop of `mat_mul`: clear the cell, then accumulate over `k`. -/
def mul_cell {α : Type} [Dbl α] (tmp mat1 mat2 : matrix) (i j : Nat) (h : Heap α) :
    Option (Heap α) :=
  (mat_elem_set h tmp i j Dbl.zero).bind (fun h1 =>
    for_loop mat1.cols (mul_step tmp mat1 mat2 i j) h1)

/-- The function `mat_mul`.  When `mat_alloc` fails, `tmp` stays uninitialised
and the later `memcpy` and `mat_free` use an indeterminate pointer. -/
def mat_mul {α : Type} [Dbl α] (h : Heap α) (res mat1 mat2 : matrix) : Option (Bool × Heap α) :=
  if mat1.cols ≠ mat2.rows ∨ res.rows ≠ mat1.rows ∨ res.cols ≠ mat2.cols then some (false, h)
  else
    match mat_alloc h { rows := 0, cols := 0, elems := none } res.rows res.cols with
    | some (true, tmp, h1) =>
      (for_loop res.rows (fun i => for_loop res.cols (mul_cell tmp mat1 mat2 i)) h1).bind
        (fun h2 =>
          (int_mul res.rows res.cols).bind (fun n =>
            (h2.memcpy res.elems tmp.elems n).bind (fun h3 =>
              (mat_free h3 tmp).map (fun r => (true, r.2)))))
    | _ => none

/-- The function `mat_muls`. -/
def mat_muls {α : Type} [Dbl α] (h : Heap α) (res mat : matrix) (c : α) : Option (Bool × Heap α) :=
  if !mat_same_size res mat then some (false, h)
  else
    (int_mul res.rows res.cols).bind (fun n =>
      (for_loop n (fun i h1 =>
        (h1.read mat.elems i).bind (fun a => h1.write res.elems i (Dbl.mul a c))) h).map
        (fun h1 => (true, h1)))

/-- The statement `mat_elem(*res, j, i) = mat_elem(mat, i, j)`. -/
def trans_step {α : Type} (res mat : matrix) (i j : Nat) (h : Heap α) : Option (Heap α) :=
  (mat_elem h mat i j).bind (fun v => mat_elem_set h res j i v)

/-- The function `mat_trans`. -/
def mat_trans {α : Type} (h : Heap α) (res mat : matrix) : Option (Bool × Heap α) :=
  if res.cols ≠ mat.rows ∨ res.rows ≠ mat.cols then some (false, h)
  else
    (for_loop mat.rows (fun i => for_loop mat.cols (trans_step res mat i)) h).map
      (fun h1 => (true, h1))

/-- The function `mat_ident`. -/
def mat_ident {α : Type} [Dbl α] (h : Heap α) (mat : matrix) : Option (Bool × Heap α) :=
  if mat.cols ≠ mat.rows then some (false, h)
  else
    (for_loop mat.rows (fun i => for_loop mat.cols (fun j h1 =>
      if i = j then mat_elem_set h1 mat i j Dbl.one else mat_elem_set h1 mat i j Dbl.zero)) h).map
      (fun h1 => (true, h1))

/-- The function `mat_equal`. -/
def mat_equal {α : Type} [Dbl α] (h : Heap α) (mat1 mat2 : matrix) : Option Bool :=
  if !mat_same_size mat1 mat2 then some false
  else
    (for_loop_ret mat1.rows (fun i => for_loop_ret mat1.cols (fun j =>
      (mat_elem h mat1 i j).bind (fun a =>
        (mat_elem h mat2 i j).bind (fun b =>
          some (if Dbl.ne a b then some false else none)))))).map
      (fun r => r.getD true)

/-- The function `mat_solve`: the body is the single statement `return false;`. -/
def mat_solve {α : Type} (h : Heap α) (_x _A _b : matrix) : Option (Bool × Heap α) :=
  some (false, h)

/-- The function `mat_inverse`: the body is the single statement `return false;`. -/
def mat_inverse {α : Type} (h : Heap α) (_invA _A : matrix) : Option (Bool × Heap α) :=
  some (false, h)

/-! ## Specification vocabulary -/

/-- A valid matrix: positive dimensions, an element count that fits the `int`
in which `mat_alloc` computes it, and a live block of exactly that many cells. -/
def Valid {α : Type} (h : Heap α) (m : matrix) : Prop :=
  0 < m.rows ∧ 0 < m.cols ∧ m.rows * m.cols ≤ INT_MAX ∧
    (h.block m.elems).map List.length = some (m.rows * m.cols).toNat

instance instDecidableValid {α : Type} (h : Heap α) (m : matrix) : Decidable (Valid h m) := by
  unfold Valid
  infer_instance

/-- The value of element `(i, j)`; `0.0` where the read is undefined. -/
def entry {α : Type} [Dbl α] (h : Heap α) (m : matrix) (i j : Nat) : α :=
  (mat_elem h m i j).getD Dbl.zero

/-- The sum of `f t * g t` over `t` in `[0, k)`, accumulated from `0.0` in increasing `t`. -/
def dot {α : Type} [Dbl α] (f g : Nat → α) (k : Nat) : α :=
  (List.range k).foldl (fun acc t => Dbl.add acc (Dbl.mul (f t) (g t))) Dbl.zero

/-- The struct `m` describes `r` rows and `c` columns, and `r * c` fits an `int`. -/
def Shaped (m : matrix) (r c : Nat) : Prop :=
  m.rows = (r : Int) ∧ m.cols = (c : Int) ∧ 0 < r ∧ 0 < c ∧ ((r * c : Nat) : Int) ≤ INT_MAX

/-- Heaps that agree with `h` on every block but the one at address `a`. -/
def Frame {α : Type} (h : Heap α) (a : Nat) (h2 : Heap α) : Prop :=
  ∀ a2, a2 ≠ a → h2.block (some a2) = h.block (some a2)

/-- Loop invariant of `mat_trans` writing block `a` from the source content `M`
(an `r` by `c` matrix): the cells `(j, i)` of the destination with `done i j`
hold the source element `(i, j)`. -/
def TransInv {α : Type} (h : Heap α) (a r c : Nat) (M : List α) (done : Nat → Nat → Prop)
    (h2 : Heap α) : Prop :=
  Frame h a h2 ∧ ∃ R2, h2.block (some a) = some R2 ∧ R2.length = c * r ∧
    ∀ i j, i < r → j < c → done i j → R2[j * r + i]? = M[i * c + j]?

/-- Loop invariant of a routine that fills block `t`, an `m` by `n` matrix:
the heap is otherwise as `h1`, and every cell `(i, j)` with `done i j` holds `val i j`. -/
def CellInv {α : Type} (h1 : Heap α) (t m n : Nat) (val : Nat → Nat → α)
    (done : Nat → Nat → Prop) (h2 : Heap α) : Prop :=
  Frame h1 t h2 ∧ ∃ T, h2.block (some t) = some T ∧ T.length = m * n ∧
    ∀ i j, i < m → j < n → done i j → T[i * n + j]? = some (val i j)

/-- The cell `(i2, j2)` comes before the cell `(i, j)` in row-major order. -/
def Before (i j i2 j2 : Nat) : Prop :=
  i2 < i ∨ (i2 = i ∧ j2 < j)

/-- The element `(i, j)` of the product of `f` (with `k` columns) and `g` (with `k` rows). -/
def prodVal {α : Type} [Dbl α] (f g : Nat → Nat → α) (k : Nat) (i j : Nat) : α :=
  dot (f i) (fun w => g w j) k

/-- The content of the scratch matrix of `mat_mul` while the cell `(i, j)` has
accumulated `u` terms: finished cells hold the product, the current one a partial sum. -/
def accVal {α : Type} [Dbl α] (f g : Nat → Nat → α) (k i j u : Nat) (i2 j2 : Nat) : α :=
  if i2 = i ∧ j2 = j then dot (f i) (fun w => g w j) u else prodVal f g k i2 j2

/-- The sum computed for cell `(i, j)` of the product of `mat1` and `mat2` as
they stand in the heap `h`: over `t` in `[0, mat1.cols)`, in increasing `t` from `0.0`. -/
def mulSum {α : Type} [Dbl α] (h : Heap α) (mat1 mat2 : matrix) (i j : Nat) : α :=
  dot (fun t => entry h mat1 i t) (fun t => entry h mat2 t j) mat1.cols.toNat

/-- The relation `same_size` of the specification: equal rows and equal columns. -/
def same_size (A B : matrix) : Prop :=
  A.rows = B.rows ∧ A.cols = B.cols

/-- The value of cell `p` of the block behind the pointer `q`; `0.0` where the read is undefined. -/
def cell {α : Type} [Dbl α] (h : Heap α) (q : Option Nat) (p : Nat) : α :=
  (h.read q (p : Int)).getD Dbl.zero

/-- Loop invariant of an elementwise routine that writes block `a`, of `n`
cells and content `R` before the call, in increasing offset: the heap is
otherwise as `h`, the cells below `i` hold `val`, the others are as in `R`. -/
def LinInv {α : Type} (h : Heap α) (a n : Nat) (R : List α) (val : Nat → α) (i : Nat)
    (h2 : Heap α) : Prop :=
  Frame h a h2 ∧ ∃ R2, h2.block (some a) = some R2 ∧ R2.length = n ∧
    (∀ p, p < i → R2[p]? = some (val p)) ∧ (∀ p, i ≤ p → R2[p]? = R[p]?)

/-- The element `(i, j)` of an identity matrix. -/
def identVal {α : Type} [Dbl α] (i j : Nat) : α :=
  if i = j then Dbl.one else Dbl.zero

/-- The empty state of a matrix: no rows, no columns, a null pointer. -/
def emptyMat : matrix := { rows := 0, cols := 0, elems := none }

/-- A rank-deficient matrix: some combination of its rows with coefficients
`c`, not all zero, vanishes in every column. -/
def Singular {α : Type} [Dbl α] (h : Heap α) (A : matrix) : Prop :=
  ∃ c : Nat → α, (∃ i : Nat, (i : Int) < A.rows ∧ Dbl.ne (c i) Dbl.zero = true) ∧
    ∀ j : Nat, (j : Int) < A.cols → dot c (fun i => entry h A i j) A.rows.toNat = Dbl.zero

instance instDecidableSameSize (A B : matrix) : Decidable (same_size A B) := by
  unfold same_size
  infer_instance

/-- The comparison made for the cell `(i, j)` by the loops of `mat_equal`. -/
def equal_step {α : Type} [Dbl α] (h : Heap α) (mat1 mat2 : matrix) (i j : Nat) :
    Option (Option Bool) :=
  (mat_elem h mat1 (i : Int) (j : Int)).bind (fun a =>
    (mat_elem h mat2 (i : Int) (j : Int)).bind (fun b =>
      some (if Dbl.ne a b then some false else none)))

/-- Numerical equality of two scalars: the C comparison `x != y` is false. -/
def numEq {α : Type} [Dbl α] (x y : α) : Prop :=
  Dbl.ne x y = false

/-- The facts about `double` arithmetic on which the neutrality of an identity
matrix rests, for a notion `fin` of finite value.  They are stated up to
numerical equality, so that IEEE 754 arithmetic satisfies them with `fin` the
finite doubles (there `x * 0` may be `-0.0` and `0.0 + -0.0` is `0.0`, which
compare equal to `0.0` and `-0.0`). -/
structure IdLaws {α : Type} [Dbl α] (fin : α → Prop) : Prop where
  fin_zero : fin (Dbl.zero : α)
  eq_refl : ∀ x : α, fin x → numEq x x
  eq_symm : ∀ x y : α, numEq x y → numEq y x
  eq_trans : ∀ x y z : α, numEq x y → numEq y z → numEq x z
  mul_one : ∀ x : α, fin x → numEq (Dbl.mul x Dbl.one) x
  one_mul : ∀ x : α, fin x → numEq (Dbl.mul Dbl.one x) x
  mul_zero : ∀ x : α, fin x → numEq (Dbl.mul x Dbl.zero) (Dbl.zero : α)
  zero_mul : ∀ x : α, fin x → numEq (Dbl.mul Dbl.zero x) (Dbl.zero : α)
  zero_add : ∀ x : α, fin x → numEq (Dbl.add Dbl.zero x) x
  add_zero : ∀ x : α, fin x → numEq (Dbl.add x Dbl.zero) x
  add_congr : ∀ x x2 y y2 : α, numEq x x2 → numEq y y2 → fin x2 → fin y2 →
    numEq (Dbl.add x y) (Dbl.add x2 y2)

/-- A heap that holds the given blocks, all live; fresh cells hold `junk`. -/
def heapOf {α : Type} (junk : α) (bs : List (List α)) : Heap α :=
  { blocks := bs.map some, fresh := fun _ _ => junk }

/-! ## Concrete inputs -/

/-- A heap of four blocks: a 2 by 3 matrix, a 3 by 2 matrix and two blocks of four cells. -/
def heapW : Heap Int :=
  heapOf 7 [[1, 2, 3, 4, 5, 6], [7, 8, 9, 10, 11, 12], [0, 0, 0, 0], [1, 2, 3, 4]]

/-- The 2 by 3 matrix `[[1,2,3],[4,5,6]]` in block 0 of `heapW`. -/
def matW1 : matrix := { rows := 2, cols := 3, elems := some 0 }

/-- The 3 by 2 matrix `[[7,8],[9,10],[11,12]]` in block 1 of `heapW`. -/
def matW2 : matrix := { rows := 3, cols := 2, elems := some 1 }

/-- A 2 by 2 destination in block 2 of `heapW`. -/
def matW3 : matrix := { rows := 2, cols := 2, elems := some 2 }

/-- The 2 by 2 matrix `[[1,2],[3,4]]` in block 3 of `heapW`. -/
def matW4 : matrix := { rows := 2, cols := 2, elems := some 3 }

/-- A 3 by 2 destination in block 4 of `heapV`. -/
def matW5 : matrix := { rows := 3, cols := 2, elems := some 4 }

/-- The heap `heapW` with a fifth block of six cells. -/
def heapV : Heap Int :=
  heapOf 7 [[1, 2, 3, 4, 5, 6], [7, 8, 9, 10, 11, 12], [0, 0, 0, 0], [1, 2, 3, 4],
    [0, 0, 0, 0, 0, 0]]

/-- A heap of three blocks of four cells, for 2 by 2 matrices. -/
def heapS : Heap Int :=
  heapOf 7 [[1, 2, 3, 4], [5, 6, 7, 8], [0, 0, 0, 0]]

/-- The 2 by 2 matrix `[[1,2],[3,4]]` in block 0 of `heapS`. -/
def matS1 : matrix := { rows := 2, cols := 2, elems := some 0 }

/-- The 2 by 2 matrix `[[5,6],[7,8]]` in block 1 of `heapS`. -/
def matS2 : matrix := { rows := 2, cols := 2, elems := some 1 }

/-- A 2 by 2 destination in block 2 of `heapS`. -/
def matS3 : matrix := { rows := 2, cols := 2, elems := some 2 }

/-- The operands of the solver test: `A = [[2,3,1],[4,1,-3],[-1,2,1]]` in block 0,
a 3 by 1 destination in block 1 and `b = [2,3,4]` in block 2. -/
def heapSolve : Heap Int :=
  heapOf 0 [[2, 3, 1, 4, 1, -3, -1, 2, 1], [0, 0, 0], [2, 3, 4]]

/-- The 3 by 3 coefficient matrix of `heapSolve`. -/
def solveA : matrix := { rows := 3, cols := 3, elems := some 0 }

/-- The 3 by 1 destination of `heapSolve`. -/
def solveX : matrix := { rows := 3, cols := 1, elems := some 1 }

/-- The 3 by 1 right-hand side of `heapSolve`. -/
def solveB : matrix := { rows := 3, cols := 1, elems := some 2 }

/-- The operands of the inverse test: `A = [[1,2,3],[2,2,3],[3,3,3]]` in block 0
and a 3 by 3 destination in block 1. -/
def heapInv : Heap Int :=
  heapOf 0 [[1, 2, 3, 2, 2, 3, 3, 3, 3], [0, 0, 0, 0, 0, 0, 0, 0, 0]]

/-- The 3 by 3 matrix to invert in `heapInv`. -/
def invA : matrix := { rows := 3, cols := 3, elems := some 0 }

/-- The 3 by 3 destination of `heapInv`. -/
def invR : matrix := { rows := 3, cols := 3, elems := some 1 }

/-- The non-singular 2 by 2 matrix `[[1,1],[0,1]]` in block 0, with two 2 by 2
destinations in blocks 1 and 2. -/
def heapUni : Heap Int :=
  heapOf 0 [[1, 1, 0, 1], [0, 0, 0, 0], [0, 0, 0, 0]]

/-- The matrix `[[1,1],[0,1]]` of `heapUni`. -/
def uniA : matrix := { rows := 2, cols := 2, elems := some 0 }

/-- The destination for the inverse in `heapUni`. -/
def uniInv : matrix := { rows := 2, cols := 2, elems := some 1 }

/-- The 1 by 1 matrix `[[NaN]]` of `heapNaN`. -/
def nanSrc : matrix := { rows := 1, cols := 1, elems := some 0 }

/-- The 1 by 1 destination of `heapNaN`. -/
def nanDst : matrix := { rows := 1, cols := 1, elems := some 1 }

/-- A heap over the scalars with NaN holding two 1 by 1 matrices, both `[[NaN]]`. -/
def heapNaN2 : Heap (Option Int) :=
  heapOf (some 0) [[none], [none]]

/-- The rank-deficient matrix `[[1,2,3],[2,4,6],[3,6,9]]` in block 0 and a 3 by 3
destination in block 1. -/
def heapSing : Heap Int :=
  heapOf 0 [[1, 2, 3, 2, 4, 6, 3, 6, 9], [5, 5, 5, 5, 5, 5, 5, 5, 5]]

/-- The 3 by 3 rank-deficient matrix of `heapSing`. -/
def singA : matrix := { rows := 3, cols := 3, elems := some 0 }

/-- The 3 by 3 destination of `heapSing`. -/
def singInv : matrix := { rows := 3, cols := 3, elems := some 1 }

/-- Coefficients of a vanishing combination of the rows of `singA`: twice the
first row minus the second. -/
def singCoef (i : Nat) : Int :=
  if i = 0 then 2 else if i = 1 then -1 else 0

theorem int_mul_of_bounds (a b : Int) (h1 : INT_MIN ≤ a * b) (h2 : a * b ≤ INT_MAX) :
    int_mul a b = some (a * b) := by
  simp [int_mul, h1, h2]

theorem int_add_of_bounds (a b : Int) (h1 : INT_MIN ≤ a + b) (h2 : a + b ≤ INT_MAX) :
    int_add a b = some (a + b) := by
  simp [int_add, h1, h2]

theorem INT_MIN_neg : INT_MIN ≤ 0 := by decide

/-- Offsets `i * c + j` with `j < c` determine the row and the column. -/
theorem offset_inj {c i j i2 j2 : Nat} (hj : j < c) (hj2 : j2 < c)
    (h : i * c + j = i2 * c + j2) : i = i2 ∧ j = j2 := by
  have hc : 0 < c := by omega
  have e1 : (i * c + j) / c = i := by
    rw [Nat.add_comm, Nat.add_mul_div_right _ _ hc, Nat.div_eq_of_lt hj, Nat.zero_add]
  have e2 : (i2 * c + j2) / c = i2 := by
    rw [Nat.add_comm, Nat.add_mul_div_right _ _ hc, Nat.div_eq_of_lt hj2, Nat.zero_add]
  have hi : i = i2 := by rw [← e1, ← e2, h]
  subst hi
  exact ⟨rfl, by omega⟩

/-- An in-range offset is below the element count. -/
theorem offset_lt {r c i j : Nat} (hi : i < r) (hj : j < c) : i * c + j < r * c := by
  have h1 : (i + 1) * c ≤ r * c := Nat.mul_le_mul_right c hi
  have h2 : (i + 1) * c = i * c + c := by ring
  omega

/-- The offset computation of `mat_elem` succeeds on offsets that fit an `int`. -/
theorem mat_index_eq (m : matrix) (c i j : Nat) (hc : m.cols = (c : Int))
    (hb : ((i * c + j : Nat) : Int) ≤ INT_MAX) :
    mat_index m (i : Int) (j : Int) = some ((i * c + j : Nat) : Int) := by
  have hb2 : (i : Int) * (c : Int) + (j : Int) ≤ INT_MAX := by
    have : ((i * c + j : Nat) : Int) = (i : Int) * (c : Int) + (j : Int) := by push_cast; ring
    rw [← this]; exact hb
  have h0 : (0 : Int) ≤ (i : Int) * (c : Int) := by positivity
  have hj0 : (0 : Int) ≤ (j : Int) := by positivity
  have hmin := INT_MIN_neg
  unfold mat_index
  rw [hc, int_mul_of_bounds _ _ (by omega) (by omega)]
  simp only [Option.some_bind]
  rw [int_add_of_bounds _ _ (by omega) (by omega)]
  push_cast
  rfl

/-! ## Memory: lemmas -/

section heap
variable {α : Type}

theorem block_lt (h : Heap α) (a : Nat) (l : List α) (hb : h.block (some a) = some l) :
    a < h.blocks.length := by
  by_contra hn
  have : h.blocks[a]? = none := List.getElem?_eq_none (by omega)
  simp [Heap.block, this] at hb

theorem block_setBlock_same (h : Heap α) (a : Nat) (b : Option (List α))
    (ha : a < h.blocks.length) : (h.setBlock a b).block (some a) = b := by
  simp [Heap.block, Heap.setBlock, List.getElem?_set, ha]

theorem block_setBlock_other (h : Heap α) (a a2 : Nat) (b : Option (List α)) (hne : a ≠ a2) :
    (h.setBlock a b).block (some a2) = h.block (some a2) := by
  simp [Heap.block, Heap.setBlock, List.getElem?_set, hne]

theorem block_malloc_new (h : Heap α) (n : Nat) :
    (h.malloc n).1.block (some (h.malloc n).2) =
      some ((List.range n).map (h.fresh h.blocks.length)) := by
  simp [Heap.block, Heap.malloc]

theorem block_malloc_old (h : Heap α) (n a : Nat) (hne : a ≠ h.blocks.length) :
    (h.malloc n).1.block (some a) = h.block (some a) := by
  simp only [Heap.block, Heap.malloc]
  rcases Nat.lt_or_gt_of_ne hne with hlt | hgt
  · rw [List.getElem?_append_left hlt]
  · rw [List.getElem?_eq_none (by simp; omega), List.getElem?_eq_none (by omega)]

theorem read_of_block (h : Heap α) (p : Option Nat) (l : List α) (k : Nat)
    (hb : h.block p = some l) : h.read p (k : Int) = l[k]? := by
  simp [Heap.read, hb]

theorem write_of_block (h : Heap α) (a : Nat) (l : List α) (k : Nat) (v : α)
    (hb : h.block (some a) = some l) (hk : k < l.length) :
    h.write (some a) (k : Int) v = some (h.setBlock a (some (l.set k v))) := by
  simp [Heap.write, hb, hk]

end heap

/-! ## Loops: invariants -/

/-- Invariant rule for `forRange`: an invariant kept by every iteration holds
at the end, and the loop does end without undefined behaviour. -/
theorem forRange_inv {σ : Type} (body : Nat → σ → Option σ) (P : Nat → σ → Prop) :
    ∀ (cnt lo : Nat) (s : σ), P lo s →
      (∀ i s1, lo ≤ i → i < lo + cnt → P i s1 → ∃ s2, body i s1 = some s2 ∧ P (i + 1) s2) →
      ∃ s2, forRange body lo cnt s = some s2 ∧ P (lo + cnt) s2 := by
  intro cnt
  induction cnt with
  | zero =>
    intro lo s h0 _
    exact ⟨s, rfl, by simpa using h0⟩
  | succ n ih =>
    intro lo s h0 hstep
    obtain ⟨s1, hb, hp⟩ := hstep lo s (Nat.le_refl _) (by omega) h0
    obtain ⟨s2, hr, hq⟩ := ih (lo + 1) s1 hp (fun i t hi hlt hpi =>
      hstep i t (by omega) (by omega) hpi)
    refine ⟨s2, ?_, ?_⟩
    · simp [forRange, hb, hr]
    · have e : lo + (n + 1) = lo + 1 + n := by omega
      rw [e]; exact hq

/-- Invariant rule for `for_loop`. -/
theorem for_loop_inv {σ : Type} (n : Int) (k : Nat) (hn : n = (k : Int))
    (body : Nat → σ → Option σ) (P : Nat → σ → Prop) (s : σ) (h0 : P 0 s)
    (hstep : ∀ i s1, i < k → P i s1 → ∃ s2, body i s1 = some s2 ∧ P (i + 1) s2) :
    ∃ s2, for_loop n body s = some s2 ∧ P k s2 := by
  have hk : n.toNat = k := by rw [hn]; simp
  obtain ⟨s2, hr, hp⟩ := forRange_inv body P k 0 s h0 (fun i s1 _ hlt hpi =>
    hstep i s1 (by omega) hpi)
  refine ⟨s2, ?_, by simpa using hp⟩
  simp [for_loop, hk, hr]

/-- A loop with early return goes through when no iteration returns. -/
theorem forRangeRet_none {ρ : Type} (body : Nat → Option (Option ρ)) :
    ∀ (cnt lo : Nat), (∀ i, lo ≤ i → i < lo + cnt → body i = some none) →
      forRangeRet body lo cnt = some none := by
  intro cnt
  induction cnt with
  | zero => intro lo _; rfl
  | succ n ih =>
    intro lo hall
    have h0 := hall lo (Nat.le_refl _) (by omega)
    have hrest := ih (lo + 1) (fun i hi hlt => hall i (by omega) (by omega))
    simp [forRangeRet, h0, hrest]

/-- A `for_loop_ret` goes through when no iteration returns. -/
theorem for_loop_ret_none {ρ : Type} (n : Int) (k : Nat) (hn : n = (k : Int))
    (body : Nat → Option (Option ρ)) (hall : ∀ i, i < k → body i = some none) :
    for_loop_ret n body = some none := by
  have hk : n.toNat = k := by rw [hn]; simp
  unfold for_loop_ret
  rw [hk]
  exact forRangeRet_none body k 0 (fun i _ hlt => hall i (by omega))

/-! ## Shapes -/

/-- A valid matrix has a shape, a non-null pointer and a live block of the right length. -/
theorem Valid.shaped {α : Type} {h : Heap α} {m : matrix} (hv : Valid h m) :
    ∃ (r c a : Nat) (l : List α), Shaped m r c ∧ m.elems = some a ∧
      h.block (some a) = some l ∧ l.length = r * c := by
  obtain ⟨hr, hc, hmax, hb⟩ := hv
  obtain ⟨r, hr2⟩ := Int.eq_ofNat_of_zero_le (le_of_lt hr)
  obtain ⟨c, hc2⟩ := Int.eq_ofNat_of_zero_le (le_of_lt hc)
  have hprod : m.rows * m.cols = ((r * c : Nat) : Int) := by rw [hr2, hc2]; push_cast; rfl
  rw [hprod] at hb hmax
  cases he : m.elems with
  | none => rw [he] at hb; simp [Heap.block] at hb
  | some a =>
    rw [he] at hb
    cases hl : h.block (some a) with
    | none => rw [hl] at hb; simp at hb
    | some l =>
      rw [hl] at hb
      simp at hb
      refine ⟨r, c, a, l, ⟨hr2, hc2, ?_, ?_, hmax⟩, rfl, hl, hb⟩
      · rw [hr2] at hr; exact_mod_cast hr
      · rw [hc2] at hc; exact_mod_cast hc

/-- Reading an in-range element of a shaped matrix is reading the block at the row-major offset. -/
theorem mat_elem_shaped {α : Type} (h : Heap α) (m : matrix) (r c i j : Nat) (l : List α)
    (hs : Shaped m r c) (hb : h.block m.elems = some l) (hi : i < r) (hj : j < c) :
    mat_elem h m (i : Int) (j : Int) = l[i * c + j]? := by
  obtain ⟨_, hc, _, _, hmax⟩ := hs
  have hlt := offset_lt hi hj
  have hb2 : ((i * c + j : Nat) : Int) ≤ INT_MAX := by
    have : ((i * c + j : Nat) : Int) ≤ ((r * c : Nat) : Int) := by exact_mod_cast le_of_lt hlt
    omega
  unfold mat_elem
  rw [mat_index_eq m c i j hc hb2]
  simp only [Option.some_bind]
  exact read_of_block h m.elems l _ hb

/-- Writing an in-range element of a shaped matrix updates the block at the row-major offset. -/
theorem mat_elem_set_shaped {α : Type} (h : Heap α) (m : matrix) (r c i j a : Nat)
    (l : List α) (v : α) (hs : Shaped m r c) (he : m.elems = some a)
    (hb : h.block (some a) = some l) (hl : l.length = r * c) (hi : i < r) (hj : j < c) :
    mat_elem_set h m (i : Int) (j : Int) v = some (h.setBlock a (some (l.set (i * c + j) v))) := by
  obtain ⟨_, hc, _, _, hmax⟩ := hs
  have hlt := offset_lt hi hj
  have hb2 : ((i * c + j : Nat) : Int) ≤ INT_MAX := by
    have : ((i * c + j : Nat) : Int) ≤ ((r * c : Nat) : Int) := by exact_mod_cast le_of_lt hlt
    omega
  unfold mat_elem_set
  rw [mat_index_eq m c i j hc hb2, he]
  simp only [Option.some_bind]
  exact write_of_block h a l _ v hb (by omega)

/-! ## Transposition -/

theorem frame_refl {α : Type} (h : Heap α) (a : Nat) : Frame h a h :=
  fun _ _ => rfl

theorem frame_setBlock {α : Type} (h h2 : Heap α) (a : Nat) (b : Option (List α))
    (hf : Frame h a h2) : Frame h a (h2.setBlock a b) := by
  intro a2 hne
  rw [block_setBlock_other h2 a a2 b (Ne.symm hne)]
  exact hf a2 hne

/-- One assignment of `mat_trans` on non-aliased operands keeps the invariant. -/
theorem trans_step_inv {α : Type} (h : Heap α) (res mat : matrix) (r c a b : Nat)
    (M : List α) (hsm : Shaped mat r c) (hsr : Shaped res c r)
    (hea : res.elems = some a) (heb : mat.elems = some b) (hab : a ≠ b)
    (hM : h.block (some b) = some M) (hMl : M.length = r * c)
    (i j : Nat) (hi : i < r) (hj : j < c) (h2 : Heap α)
    (hinv : TransInv h a r c M (fun i2 j2 => i2 < i ∨ (i2 = i ∧ j2 < j)) h2) :
    ∃ h3, trans_step res mat i j h2 = some h3 ∧
      TransInv h a r c M (fun i2 j2 => i2 < i ∨ (i2 = i ∧ j2 < j + 1)) h3 := by
  obtain ⟨hf, R2, hR2, hl, hdone⟩ := hinv
  have hMb : h2.block mat.elems = some M := by
    rw [heb, hf b (Ne.symm hab)]; exact hM
  have hlt : i * c + j < M.length := by rw [hMl]; exact offset_lt hi hj
  have hread : mat_elem h2 mat (i : Int) (j : Int) = some (M[i * c + j]) := by
    rw [mat_elem_shaped h2 mat r c i j M hsm hMb hi hj]
    exact List.getElem?_eq_getElem hlt
  have hwrite := mat_elem_set_shaped h2 res c r j i a R2 (M[i * c + j]) hsr hea hR2 hl hj hi
  refine ⟨h2.setBlock a (some (R2.set (j * r + i) (M[i * c + j]))), ?_, ?_⟩
  · unfold trans_step
    rw [hread]
    simp only [Option.some_bind]
    exact hwrite
  · refine ⟨frame_setBlock h h2 a _ hf, R2.set (j * r + i) (M[i * c + j]), ?_, ?_, ?_⟩
    · exact block_setBlock_same h2 a _ (block_lt h2 a R2 hR2)
    · simp [hl]
    · intro i2 j2 hi2 hj2 hd
      by_cases hsame : j2 * r + i2 = j * r + i
      · obtain ⟨e1, e2⟩ := offset_inj hi2 hi hsame
        subst e1; subst e2
        have : j2 * r + i2 < R2.length := by rw [hl]; exact offset_lt hj2 hi2
        rw [List.getElem?_set_self this]
        exact (List.getElem?_eq_getElem hlt).symm
      · rw [List.getElem?_set_ne (Ne.symm hsame)]
        apply hdone i2 j2 hi2 hj2
        rcases hd with hd | ⟨hd1, hd2⟩
        · exact Or.inl hd
        · refine Or.inr ⟨hd1, ?_⟩
          rcases Nat.lt_succ_iff_lt_or_eq.mp hd2 with hd3 | hd3
          · exact hd3
          · exfalso; apply hsame; rw [hd1, hd3]

/-- What `mat_trans` does on non-aliased operands of matching shapes: it
returns true, touches only the destination block, and stores the transpose. -/
theorem mat_trans_spec {α : Type} (h : Heap α) (res mat : matrix) (r c a b : Nat)
    (R M : List α) (hsm : Shaped mat r c) (hsr : Shaped res c r)
    (hea : res.elems = some a) (heb : mat.elems = some b) (hab : a ≠ b)
    (hR : h.block (some a) = some R) (hRl : R.length = c * r)
    (hM : h.block (some b) = some M) (hMl : M.length = r * c) :
    ∃ h2, mat_trans h res mat = some (true, h2) ∧
      TransInv h a r c M (fun _ _ => True) h2 := by
  have houter := for_loop_inv mat.rows r hsm.1
    (fun i => for_loop mat.cols (trans_step res mat i))
    (fun i h2 => TransInv h a r c M (fun i2 _ => i2 < i) h2) h
    ⟨frame_refl h a, R, hR, hRl, fun _ _ _ _ hd => absurd hd (Nat.not_lt_zero _)⟩
    (by
      intro i h2 hi hinv
      have hinner := for_loop_inv mat.cols c hsm.2.1 (trans_step res mat i)
        (fun j h3 => TransInv h a r c M (fun i2 j2 => i2 < i ∨ (i2 = i ∧ j2 < j)) h3) h2
        (by
          obtain ⟨hf, R2, hR2, hl, hdone⟩ := hinv
          refine ⟨hf, R2, hR2, hl, ?_⟩
          intro i2 j2 hi2 hj2 hd
          rcases hd with hd | ⟨_, hd⟩
          · exact hdone i2 j2 hi2 hj2 hd
          · exact absurd hd (Nat.not_lt_zero _))
        (fun j h3 hj hinv3 =>
          trans_step_inv h res mat r c a b M hsm hsr hea heb hab hM hMl i j hi hj h3 hinv3)
      obtain ⟨h3, hrun, hf, R3, hR3, hl3, hdone3⟩ := hinner
      refine ⟨h3, hrun, hf, R3, hR3, hl3, ?_⟩
      intro i2 j2 hi2 hj2 hd
      apply hdone3 i2 j2 hi2 hj2
      rcases Nat.lt_succ_iff_lt_or_eq.mp hd with hd2 | hd2
      · exact Or.inl hd2
      · exact Or.inr ⟨hd2, hj2⟩)
  obtain ⟨h2, hrun, hf, R2, hR2, hl2, hdone⟩ := houter
  have hdims : ¬ (res.cols ≠ mat.rows ∨ res.rows ≠ mat.cols) := by
    rw [hsr.1, hsr.2.1, hsm.1, hsm.2.1]; simp
  refine ⟨h2, ?_, hf, R2, hR2, hl2, fun i j hi hj _ => hdone i j hi hj hi⟩
  unfold mat_trans
  rw [if_neg hdims, hrun]
  rfl

/-! ## Filling a block cell by cell -/

section cells
variable {α : Type}

/-- A read of `mat_elem` depends on the heap only through the block of the matrix. -/
theorem mat_elem_congr (h h2 : Heap α) (m : matrix) (i j : Int)
    (hb : h2.block m.elems = h.block m.elems) : mat_elem h2 m i j = mat_elem h m i j := by
  unfold mat_elem Heap.read
  rw [hb]

theorem cellInv_read (h1 h2 : Heap α) (tmp : matrix) (t m n : Nat) (val : Nat → Nat → α)
    (done : Nat → Nat → Prop) (hs : Shaped tmp m n) (he : tmp.elems = some t)
    (hinv : CellInv h1 t m n val done h2) (i j : Nat) (hi : i < m) (hj : j < n)
    (hd : done i j) : mat_elem h2 tmp (i : Int) (j : Int) = some (val i j) := by
  obtain ⟨_, T, hT, _, hcells⟩ := hinv
  rw [mat_elem_shaped h2 tmp m n i j T hs (by rw [he]; exact hT) hi hj]
  exact hcells i j hi hj hd

theorem cellInv_weaken (h1 h2 : Heap α) (t m n : Nat) (val val2 : Nat → Nat → α)
    (done done2 : Nat → Nat → Prop) (hinv : CellInv h1 t m n val done h2)
    (hw : ∀ i j, i < m → j < n → done2 i j → done i j ∧ val2 i j = val i j) :
    CellInv h1 t m n val2 done2 h2 := by
  obtain ⟨hf, T, hT, hl, hcells⟩ := hinv
  refine ⟨hf, T, hT, hl, ?_⟩
  intro i j hi hj hd
  obtain ⟨hd1, hv⟩ := hw i j hi hj hd
  rw [hv]
  exact hcells i j hi hj hd1

/-- Writing the cell `(i, j)` re-establishes the invariant for every
description of the block that is met at `(i, j)` by the value written and
elsewhere by the old description. -/
theorem cellInv_write (h1 h2 : Heap α) (tmp : matrix) (t m n : Nat) (val val2 : Nat → Nat → α)
    (done done2 : Nat → Nat → Prop) (hs : Shaped tmp m n) (he : tmp.elems = some t)
    (hinv : CellInv h1 t m n val done h2) (i j : Nat) (hi : i < m) (hj : j < n) (v : α)
    (hnew : ∀ i2 j2, i2 < m → j2 < n → done2 i2 j2 →
      (i2 = i ∧ j2 = j ∧ val2 i2 j2 = v) ∨
        (¬ (i2 = i ∧ j2 = j) ∧ done i2 j2 ∧ val2 i2 j2 = val i2 j2)) :
    ∃ h3, mat_elem_set h2 tmp (i : Int) (j : Int) v = some h3 ∧
      CellInv h1 t m n val2 done2 h3 := by
  obtain ⟨hf, T, hT, hl, hcells⟩ := hinv
  refine ⟨h2.setBlock t (some (T.set (i * n + j) v)),
    mat_elem_set_shaped h2 tmp m n i j t T v hs he hT hl hi hj,
    frame_setBlock h1 h2 t _ hf, T.set (i * n + j) v,
    block_setBlock_same h2 t _ (block_lt h2 t T hT), by simp [hl], ?_⟩
  intro i2 j2 hi2 hj2 hd
  rcases hnew i2 j2 hi2 hj2 hd with ⟨e1, e2, hv⟩ | ⟨hne, hd1, hv⟩
  · subst e1; subst e2
    have : i2 * n + j2 < T.length := by rw [hl]; exact offset_lt hi2 hj2
    rw [List.getElem?_set_self this, hv]
  · have hoff : i * n + j ≠ i2 * n + j2 := by
      intro e
      obtain ⟨e1, e2⟩ := offset_inj hj hj2 e
      exact hne ⟨e1.symm, e2.symm⟩
    rw [List.getElem?_set_ne hoff, hv]
    exact hcells i2 j2 hi2 hj2 hd1

/-- Reading through a cell invariant whose every cell is done. -/
theorem cellInv_elem (h h2 : Heap α) (m : matrix) (r c a : Nat) (val : Nat → Nat → α)
    (hs : Shaped m r c) (he : m.elems = some a)
    (hinv : CellInv h a r c val (fun _ _ => True) h2) (i j : Nat) (hi : i < r) (hj : j < c) :
    mat_elem h2 m (i : Int) (j : Int) = some (val i j) :=
  cellInv_read h h2 m a r c val _ hs he hinv i j hi hj trivial

end cells

/-! ## Product -/

section product
variable {α : Type} [Dbl α]

theorem dot_zero (f g : Nat → α) : dot f g 0 = Dbl.zero := by
  simp [dot]

theorem dot_succ (f g : Nat → α) (k : Nat) :
    dot f g (k + 1) = Dbl.add (dot f g k) (Dbl.mul (f k) (g k)) := by
  simp [dot, List.range_succ, List.foldl_append]

/-- One accumulation step of `mat_mul` keeps the invariant of the scratch block. -/
theorem mul_step_inv (h1 : Heap α) (tmp mat1 mat2 : matrix) (t m n k : Nat)
    (f g : Nat → Nat → α) (hst : Shaped tmp m n) (het : tmp.elems = some t)
    (hf : ∀ h2, Frame h1 t h2 → ∀ i u, i < m → u < k →
      mat_elem h2 mat1 (i : Int) (u : Int) = some (f i u))
    (hg : ∀ h2, Frame h1 t h2 → ∀ u j, u < k → j < n →
      mat_elem h2 mat2 (u : Int) (j : Int) = some (g u j))
    (i j u : Nat) (hi : i < m) (hj : j < n) (hu : u < k) (h2 : Heap α)
    (hinv : CellInv h1 t m n (accVal f g k i j u) (Before i (j + 1)) h2) :
    ∃ h3, mul_step tmp mat1 mat2 i j u h2 = some h3 ∧
      CellInv h1 t m n (accVal f g k i j (u + 1)) (Before i (j + 1)) h3 := by
  have hacc := cellInv_read h1 h2 tmp t m n _ _ hst het hinv i j hi hj
    (Or.inr ⟨rfl, Nat.lt_succ_self j⟩)
  have ha := hf h2 hinv.1 i u hi hu
  have hb := hg h2 hinv.1 u j hu hj
  obtain ⟨h3, hw, hinv3⟩ := cellInv_write h1 h2 tmp t m n (accVal f g k i j u)
    (accVal f g k i j (u + 1)) (Before i (j + 1)) (Before i (j + 1)) hst het hinv i j hi hj
    (Dbl.add (accVal f g k i j u i j) (Dbl.mul (f i u) (g u j)))
    (by
      intro i2 j2 _ _ hd
      by_cases hc : i2 = i ∧ j2 = j
      · refine Or.inl ⟨hc.1, hc.2, ?_⟩
        simp [accVal, hc, dot_succ]
      · exact Or.inr ⟨hc, hd, by simp [accVal, hc]⟩)
  refine ⟨h3, ?_, hinv3⟩
  unfold mul_step
  rw [hacc, ha, hb]
  exact hw

/-- The body of the column loop of `mat_mul` finishes one more cell. -/
theorem mul_cell_inv (h1 : Heap α) (tmp mat1 mat2 : matrix) (t m n k : Nat)
    (f g : Nat → Nat → α) (hst : Shaped tmp m n) (het : tmp.elems = some t)
    (hk : mat1.cols = (k : Int))
    (hf : ∀ h2, Frame h1 t h2 → ∀ i u, i < m → u < k →
      mat_elem h2 mat1 (i : Int) (u : Int) = some (f i u))
    (hg : ∀ h2, Frame h1 t h2 → ∀ u j, u < k → j < n →
      mat_elem h2 mat2 (u : Int) (j : Int) = some (g u j))
    (i j : Nat) (hi : i < m) (hj : j < n) (h2 : Heap α)
    (hinv : CellInv h1 t m n (prodVal f g k) (Before i j) h2) :
    ∃ h3, mul_cell tmp mat1 mat2 i j h2 = some h3 ∧
      CellInv h1 t m n (prodVal f g k) (Before i (j + 1)) h3 := by
  obtain ⟨h3, hw, hinv3⟩ := cellInv_write h1 h2 tmp t m n (prodVal f g k)
    (accVal f g k i j 0) (Before i j) (Before i (j + 1)) hst het hinv i j hi hj Dbl.zero
    (by
      intro i2 j2 _ _ hd
      by_cases hc : i2 = i ∧ j2 = j
      · refine Or.inl ⟨hc.1, hc.2, ?_⟩
        simp [accVal, hc, dot_zero]
      · refine Or.inr ⟨hc, ?_, by simp [accVal, hc]⟩
        rcases hd with hd | ⟨hd1, hd2⟩
        · exact Or.inl hd
        · refine Or.inr ⟨hd1, ?_⟩
          rcases Nat.lt_succ_iff_lt_or_eq.mp hd2 with hd3 | hd3
          · exact hd3
          · exact absurd ⟨hd1, hd3⟩ hc)
  obtain ⟨h4, hrun, hinv4⟩ := for_loop_inv mat1.cols k hk (mul_step tmp mat1 mat2 i j)
    (fun u h5 => CellInv h1 t m n (accVal f g k i j u) (Before i (j + 1)) h5) h3 hinv3
    (fun u h5 hu hinv5 => mul_step_inv h1 tmp mat1 mat2 t m n k f g hst het hf hg i j u
      hi hj hu h5 hinv5)
  refine ⟨h4, ?_, ?_⟩
  · unfold mul_cell
    rw [hw]
    exact hrun
  · apply cellInv_weaken h1 h4 t m n _ _ _ _ hinv4
    intro i2 j2 _ _ hd
    refine ⟨hd, ?_⟩
    by_cases hc : i2 = i ∧ j2 = j
    · simp [accVal, hc, prodVal]
    · simp [accVal, hc]

/-- The three nested loops of `mat_mul` fill the scratch block with the product. -/
theorem mul_loops_inv (h1 : Heap α) (res tmp mat1 mat2 : matrix) (t m n k : Nat)
    (f g : Nat → Nat → α) (hst : Shaped tmp m n) (het : tmp.elems = some t)
    (hm : res.rows = (m : Int)) (hn : res.cols = (n : Int)) (hk : mat1.cols = (k : Int))
    (hf : ∀ h2, Frame h1 t h2 → ∀ i u, i < m → u < k →
      mat_elem h2 mat1 (i : Int) (u : Int) = some (f i u))
    (hg : ∀ h2, Frame h1 t h2 → ∀ u j, u < k → j < n →
      mat_elem h2 mat2 (u : Int) (j : Int) = some (g u j))
    (T : List α) (hT : h1.block (some t) = some T) (hTl : T.length = m * n) :
    ∃ h2, for_loop res.rows (fun i => for_loop res.cols (mul_cell tmp mat1 mat2 i)) h1 = some h2 ∧
      CellInv h1 t m n (prodVal f g k) (fun _ _ => True) h2 := by
  obtain ⟨h2, hrun, hinv⟩ := for_loop_inv res.rows m hm
    (fun i => for_loop res.cols (mul_cell tmp mat1 mat2 i))
    (fun i h2 => CellInv h1 t m n (prodVal f g k) (fun i2 _ => i2 < i) h2) h1
    ⟨frame_refl h1 t, T, hT, hTl, fun _ _ _ _ hd => absurd hd (Nat.not_lt_zero _)⟩
    (by
      intro i h2 hi hinv
      obtain ⟨h3, hrun, hinv3⟩ := for_loop_inv res.cols n hn (mul_cell tmp mat1 mat2 i)
        (fun j h3 => CellInv h1 t m n (prodVal f g k) (Before i j) h3) h2
        (cellInv_weaken h1 h2 t m n _ _ _ _ hinv (by
          intro i2 j2 _ _ hd
          rcases hd with hd | ⟨_, hd⟩
          · exact ⟨hd, rfl⟩
          · exact absurd hd (Nat.not_lt_zero _)))
        (fun j h3 hj hinv3 => mul_cell_inv h1 tmp mat1 mat2 t m n k f g hst het hk hf hg i j
          hi hj h3 hinv3)
      refine ⟨h3, hrun, cellInv_weaken h1 h3 t m n _ _ _ _ hinv3 ?_⟩
      intro i2 j2 _ hj2 hd
      refine ⟨?_, rfl⟩
      rcases Nat.lt_succ_iff_lt_or_eq.mp hd with hd2 | hd2
      · exact Or.inl hd2
      · exact Or.inr ⟨hd2, hj2⟩)
  exact ⟨h2, hrun, cellInv_weaken h1 h2 t m n _ _ _ _ hinv (fun i2 _ hi2 _ _ => ⟨hi2, rfl⟩)⟩

/-- What `mat_mul` does on operands of matching shapes, aliased or not: it
returns true, changes only the destination block, and stores the product of
the operands as they were before the call. -/
theorem mat_mul_spec (h : Heap α) (res mat1 mat2 : matrix) (m n k a b1 b2 : Nat)
    (R A B : List α) (f g : Nat → Nat → α)
    (hsr : Shaped res m n) (hs1 : Shaped mat1 m k) (hs2 : Shaped mat2 k n)
    (hea : res.elems = some a) (hR : h.block (some a) = some R) (hRl : R.length = m * n)
    (he1 : mat1.elems = some b1) (hA : h.block (some b1) = some A)
    (he2 : mat2.elems = some b2) (hB : h.block (some b2) = some B)
    (hf : ∀ i u, i < m → u < k → mat_elem h mat1 (i : Int) (u : Int) = some (f i u))
    (hg : ∀ u j, u < k → j < n → mat_elem h mat2 (u : Int) (j : Int) = some (g u j)) :
    ∃ h4, mat_mul h res mat1 mat2 = some (true, h4) ∧
      CellInv h a m n (prodVal f g k) (fun _ _ => True) h4 := by
  obtain ⟨hrm, hrn, hm0, hn0, hmax⟩ := hsr
  have hprod : res.rows * res.cols = ((m * n : Nat) : Int) := by
    rw [hrm, hrn]; push_cast; rfl
  have hmul : int_mul res.rows res.cols = some ((m * n : Nat) : Int) := by
    rw [← hprod]
    apply int_mul_of_bounds
    · rw [hprod]; have := INT_MIN_neg; omega
    · rw [hprod]; exact hmax
  have htn : ((m : Int) * (n : Int)).toNat = m * n := by
    rw [← Nat.cast_mul]; exact Int.toNat_ofNat (m * n)
  have hnn : (0 : Int) ≤ (m : Int) * (n : Int) := by positivity
  have hat : a < h.blocks.length := block_lt h a R hR
  have hb1t : b1 < h.blocks.length := block_lt h b1 A hA
  have hb2t : b2 < h.blocks.length := block_lt h b2 B hB
  have halloc : mat_alloc h { rows := 0, cols := 0, elems := none } res.rows res.cols =
      some (true, { rows := res.rows, cols := res.cols, elems := some h.blocks.length },
        (h.malloc (m * n)).1) := by
    have hpos : ¬ (res.rows ≤ 0 ∨ res.cols ≤ 0) := by
      rw [hrm, hrn]; omega
    unfold mat_alloc
    rw [if_neg hpos, hmul]
    simp [Heap.malloc, htn]
  have hst : Shaped { rows := res.rows, cols := res.cols, elems := some h.blocks.length } m n :=
    ⟨hrm, hrn, hm0, hn0, hmax⟩
  have hold : ∀ a2, a2 ≠ h.blocks.length →
      (h.malloc (m * n)).1.block (some a2) = h.block (some a2) :=
    fun a2 hne => block_malloc_old h (m * n) a2 hne
  have hf2 : ∀ h2, Frame (h.malloc (m * n)).1 h.blocks.length h2 → ∀ i u, i < m → u < k →
      mat_elem h2 mat1 (i : Int) (u : Int) = some (f i u) := by
    intro h2 hfr i u hi hu
    rw [mat_elem_congr h h2 mat1 _ _ (by
      rw [he1, hfr b1 (by omega), hold b1 (by omega)])]
    exact hf i u hi hu
  have hg2 : ∀ h2, Frame (h.malloc (m * n)).1 h.blocks.length h2 → ∀ u j, u < k → j < n →
      mat_elem h2 mat2 (u : Int) (j : Int) = some (g u j) := by
    intro h2 hfr u j hu hj
    rw [mat_elem_congr h h2 mat2 _ _ (by
      rw [he2, hfr b2 (by omega), hold b2 (by omega)])]
    exact hg u j hu hj
  obtain ⟨h2, hrun, hfr, T, hT, hTl, hcells⟩ := mul_loops_inv (h.malloc (m * n)).1 res
    { rows := res.rows, cols := res.cols, elems := some h.blocks.length } mat1 mat2
    h.blocks.length m n k f g hst rfl hrm hrn hs1.2.1 hf2 hg2
    ((List.range (m * n)).map (h.fresh h.blocks.length))
    (block_malloc_new h (m * n)) (by simp)
  have hR2 : h2.block (some a) = some R := by
    rw [hfr a (by omega), hold a (by omega)]; exact hR
  have hcopy : h2.memcpy res.elems (some h.blocks.length) ((m * n : Nat) : Int) =
      some (h2.setBlock a (some T)) := by
    have hne : some a ≠ some h.blocks.length := by
      intro e; injection e with e; omega
    unfold Heap.memcpy
    rw [hea, hR2, hT]
    have e1 : List.take (m * n) T = T := by rw [← hTl]; exact List.take_length T
    have e2 : List.drop (m * n) R = [] := by rw [← hRl]; exact List.drop_length R
    simp [hRl, hTl, hne, htn, hnn, e1, e2]
  have hT3 : (h2.setBlock a (some T)).block (some h.blocks.length) = some T := by
    rw [block_setBlock_other h2 a _ _ (by omega)]; exact hT
  have hfree : mat_free (h2.setBlock a (some T))
      { rows := res.rows, cols := res.cols, elems := some h.blocks.length } =
      some ({ rows := 0, cols := 0, elems := none },
        (h2.setBlock a (some T)).setBlock h.blocks.length none) := by
    simp [mat_free, Heap.free, hT3]
  refine ⟨(h2.setBlock a (some T)).setBlock h.blocks.length none, ?_, ?_, T, ?_, hTl,
    fun i j hi hj _ => hcells i j hi hj trivial⟩
  · have hdims : ¬ (mat1.cols ≠ mat2.rows ∨ res.rows ≠ mat1.rows ∨ res.cols ≠ mat2.cols) := by
      rw [hs1.2.1, hs2.1, hrm, hs1.1, hrn, hs2.2.1]; simp
    unfold mat_mul
    rw [if_neg hdims, halloc]
    simp only []
    rw [hrun]
    simp only [Option.some_bind]
    rw [hmul]
    simp only [Option.some_bind]
    rw [hcopy]
    simp only [Option.some_bind]
    rw [hfree]
    rfl
  · intro a2 hne
    by_cases ht : a2 = h.blocks.length
    · subst ht
      have hlen : h.blocks.length < (h2.setBlock a (some T)).blocks.length := by
        exact block_lt _ _ T hT3
      rw [block_setBlock_same _ _ _ hlen]
      simp [Heap.block]
    · rw [block_setBlock_other _ _ _ _ (Ne.symm ht),
        block_setBlock_other _ _ _ _ (Ne.symm hne), hfr a2 ht, hold a2 ht]
  · rw [block_setBlock_other _ _ _ _ (by omega)]
    exact block_setBlock_same h2 a _ (block_lt h2 a R hR2)

end product

/-! ## Allocation, copy and comparison -/

/-- The call `mat_alloc` with positive dimensions whose product fits an `int`
returns true and a fresh block at the next address. -/
theorem mat_alloc_shaped {α : Type} (h : Heap α) (mat : matrix) (rows cols : Int) (r c : Nat)
    (hr : rows = (r : Int)) (hc : cols = (c : Int)) (hr0 : 0 < r) (hc0 : 0 < c)
    (hmax : ((r * c : Nat) : Int) ≤ INT_MAX) :
    mat_alloc h mat rows cols =
      some (true, { rows := rows, cols := cols, elems := some h.blocks.length },
        (h.malloc (r * c)).1) := by
  have hprod : rows * cols = ((r * c : Nat) : Int) := by rw [hr, hc]; push_cast; rfl
  have hmul : int_mul rows cols = some ((r * c : Nat) : Int) := by
    rw [← hprod]
    apply int_mul_of_bounds
    · rw [hprod]; have := INT_MIN_neg; omega
    · rw [hprod]; exact hmax
  have hpos : ¬ (rows ≤ 0 ∨ cols ≤ 0) := by rw [hr, hc]; omega
  have htn : ((r : Int) * (c : Int)).toNat = r * c := by
    rw [← Nat.cast_mul]; exact Int.toNat_ofNat (r * c)
  unfold mat_alloc
  rw [if_neg hpos, hmul]
  simp [Heap.malloc, htn]

/-- What `mat_copy` does when the destination has the size of a valid source:
it returns true, points the destination to a fresh block and fills that block
with the source content. -/
theorem mat_copy_spec {α : Type} (h : Heap α) (dst src : matrix) (r c b : Nat) (S : List α)
    (hs : Shaped src r c) (heb : src.elems = some b) (hS : h.block (some b) = some S)
    (hSl : S.length = r * c) (hsz : dst.rows = src.rows ∧ dst.cols = src.cols) :
    mat_copy h dst src =
      some (true, { rows := src.rows, cols := src.cols, elems := some h.blocks.length },
        ((h.malloc (r * c)).1).setBlock h.blocks.length (some S)) := by
  obtain ⟨hr, hc, hr0, hc0, hmax⟩ := hs
  have hsame : mat_same_size dst src = true := by simp [mat_same_size, hsz.1, hsz.2]
  have hprod : src.rows * src.cols = ((r * c : Nat) : Int) := by rw [hr, hc]; push_cast; rfl
  have hmul : int_mul src.rows src.cols = some ((r * c : Nat) : Int) := by
    rw [← hprod]
    apply int_mul_of_bounds
    · rw [hprod]; have := INT_MIN_neg; omega
    · rw [hprod]; exact hmax
  have htn : ((r : Int) * (c : Int)).toNat = r * c := by
    rw [← Nat.cast_mul]; exact Int.toNat_ofNat (r * c)
  have hnn : (0 : Int) ≤ (r : Int) * (c : Int) := by positivity
  have hbt : b < h.blocks.length := block_lt h b S hS
  have hS1 : (h.malloc (r * c)).1.block (some b) = some S := by
    rw [block_malloc_old h (r * c) b (by omega)]; exact hS
  have hcopy : (h.malloc (r * c)).1.memcpy (some h.blocks.length) src.elems
      ((r * c : Nat) : Int) =
      some (((h.malloc (r * c)).1).setBlock h.blocks.length (some S)) := by
    have hne : h.blocks.length ≠ b := by omega
    have hnew : (h.malloc (r * c)).1.block (some h.blocks.length) =
        some ((List.range (r * c)).map (h.fresh h.blocks.length)) := block_malloc_new h (r * c)
    have e1 : List.take (r * c) S = S := by rw [← hSl]; exact List.take_length S
    have e2 : List.drop (r * c) ((List.range (r * c)).map (h.fresh h.blocks.length)) = [] := by
      apply List.drop_eq_nil_of_le; simp
    unfold Heap.memcpy
    rw [heb, hS1, hnew]
    simp [hSl, hne, htn, hnn, e1, e2]
  unfold mat_copy
  rw [hsame, mat_alloc_shaped h dst src.rows src.cols r c hr hc hr0 hc0 hmax]
  simp only [Bool.not_true, Bool.false_eq_true, if_false]
  rw [hmul]
  simp only [Option.some_bind]
  rw [hcopy]
  rfl

/-- On a valid source and a destination of the same size, `mat_copy` returns
true, gives the destination the source's dimensions and elements, and leaves
the source block as it was. -/
theorem mat_copy_valid {α : Type} (h : Heap α) (dst src : matrix) (hvs : Valid h src)
    (hsz : dst.rows = src.rows ∧ dst.cols = src.cols) :
    ∃ dst2 h2, mat_copy h dst src = some (true, dst2, h2) ∧
      dst2.rows = src.rows ∧ dst2.cols = src.cols ∧
      h2.block src.elems = h.block src.elems ∧
      ∀ i j : Nat, (i : Int) < src.rows → (j : Int) < src.cols →
        mat_elem h2 dst2 (i : Int) (j : Int) = mat_elem h src (i : Int) (j : Int) := by
  obtain ⟨r, c, b, S, hs, heb, hS, hSl⟩ := hvs.shaped
  have hbt : b < h.blocks.length := block_lt h b S hS
  have hlen : h.blocks.length < (h.malloc (r * c)).1.blocks.length := by
    simp [Heap.malloc]
  refine ⟨_, _, mat_copy_spec h dst src r c b S hs heb hS hSl hsz, rfl, rfl, ?_, ?_⟩
  · rw [heb, block_setBlock_other _ _ _ _ (by omega), block_malloc_old h (r * c) b (by omega)]
  · intro i j hi hj
    have hi2 : i < r := by rw [hs.1] at hi; exact_mod_cast hi
    have hj2 : j < c := by rw [hs.2.1] at hj; exact_mod_cast hj
    have hsd : Shaped { rows := src.rows, cols := src.cols, elems := some h.blocks.length } r c :=
      hs
    rw [mat_elem_shaped _ _ r c i j S hsd (block_setBlock_same _ _ _ hlen) hi2 hj2,
      mat_elem_shaped h src r c i j S hs (by rw [heb]; exact hS) hi2 hj2]

/-! ## Elementwise loops -/

section elementwise
variable {α : Type}

/-- The function `mat_same_size` decides the relation `same_size`. -/
theorem mat_same_size_iff (A B : matrix) : mat_same_size A B = true ↔ same_size A B := by
  unfold mat_same_size same_size
  by_cases hc : A.cols = B.cols <;> by_cases hr : A.rows = B.rows <;> simp [hc, hr]

/-- Under the invariant at offset `i`, a read at an offset from `i` on, through
any pointer, yields what it yielded before the call. -/
theorem linInv_read (h h2 : Heap α) (a n : Nat) (R : List α) (val : Nat → α) (i : Nat)
    (hR : h.block (some a) = some R) (hinv : LinInv h a n R val i h2)
    (q : Option Nat) (p : Nat) (hp : i ≤ p) : h2.read q (p : Int) = h.read q (p : Int) := by
  obtain ⟨hf, R2, hR2, _, _, hrest⟩ := hinv
  cases q with
  | none => simp [Heap.read, Heap.block]
  | some b =>
    by_cases hb : b = a
    · subst hb
      rw [read_of_block h2 (some b) R2 p hR2, read_of_block h (some b) R p hR]
      exact hrest p hp
    · unfold Heap.read
      rw [hf b hb]

/-- A loop whose iteration `i` stores `val i` at offset `i` of block `a`
establishes the invariant at the end of the block. -/
theorem lin_loop (h : Heap α) (a n : Nat) (R : List α) (val : Nat → α)
    (body : Nat → Heap α → Option (Heap α)) (cnt : Int) (hcnt : cnt = (n : Int))
    (hR : h.block (some a) = some R) (hRl : R.length = n)
    (hbody : ∀ i h2, i < n → LinInv h a n R val i h2 →
      body i h2 = h2.write (some a) (i : Int) (val i)) :
    ∃ h2, for_loop cnt body h = some h2 ∧ LinInv h a n R val n h2 := by
  apply for_loop_inv cnt n hcnt body (fun i h2 => LinInv h a n R val i h2) h
  · exact ⟨frame_refl h a, R, hR, hRl, fun p hp => absurd hp (Nat.not_lt_zero _),
      fun _ _ => rfl⟩
  · intro i h2 hi hinv
    have hb := hbody i h2 hi hinv
    obtain ⟨hf, R2, hR2, hl, hdone, hrest⟩ := hinv
    refine ⟨h2.setBlock a (some (R2.set i (val i))), ?_, frame_setBlock h h2 a _ hf,
      R2.set i (val i), block_setBlock_same h2 a _ (block_lt h2 a R2 hR2), by simp [hl], ?_, ?_⟩
    · rw [hb]
      exact write_of_block h2 a R2 i (val i) hR2 (by omega)
    · intro p hp
      by_cases hpi : p = i
      · subst hpi
        exact List.getElem?_set_self (by omega)
      · rw [List.getElem?_set_ne (Ne.symm hpi)]
        exact hdone p (by omega)
    · intro p hp
      rw [List.getElem?_set_ne (by omega)]
      exact hrest p (by omega)

/-- Two valid matrices of one size share a shape, and each has a live block of that many cells. -/
theorem valid_same_shape (h : Heap α) (res mat : matrix) (hvr : Valid h res) (hvm : Valid h mat)
    (hs : same_size res mat) :
    ∃ (r c a : Nat) (R M : List α), Shaped res r c ∧ Shaped mat r c ∧ res.elems = some a ∧
      h.block (some a) = some R ∧ R.length = r * c ∧
      h.block mat.elems = some M ∧ M.length = r * c := by
  obtain ⟨r, c, a, R, hsr, hea, hR, hRl⟩ := hvr.shaped
  obtain ⟨r1, c1, b, M, hsm, heb, hM, hMl⟩ := hvm.shaped
  have e1 : r1 = r := by
    have := hs.1; rw [hsr.1, hsm.1] at this; exact_mod_cast this.symm
  have e2 : c1 = c := by
    have := hs.2; rw [hsr.2.1, hsm.2.1] at this; exact_mod_cast this.symm
  subst e1; subst e2
  exact ⟨r1, c1, a, R, M, hsr, hsm, hea, hR, hRl, by rw [heb]; exact hM, hMl⟩

end elementwise

section elementwise_values
variable {α : Type} [Dbl α]

/-- A read inside a live block is defined and yields `cell`. -/
theorem read_cell (h : Heap α) (q : Option Nat) (l : List α) (p : Nat)
    (hb : h.block q = some l) (hp : p < l.length) :
    h.read q (p : Int) = some (cell h q p) := by
  have hr : h.read q (p : Int) = some (l[p]) := by
    rw [read_of_block h q l p hb]; exact List.getElem?_eq_getElem hp
  unfold cell
  rw [hr]
  rfl

/-- The element `(i, j)` of a shaped matrix is the cell at the row-major offset. -/
theorem entry_eq_cell (h : Heap α) (m : matrix) (r c i j : Nat) (l : List α)
    (hs : Shaped m r c) (hb : h.block m.elems = some l) (hi : i < r) (hj : j < c) :
    entry h m i j = cell h m.elems (i * c + j) := by
  unfold entry cell
  rw [mat_elem_shaped h m r c i j l hs hb hi hj, read_of_block h m.elems l _ hb]

/-- The loop of `mat_add` and `mat_sub`, on three blocks of `n` cells that may
coincide: every cell of the destination receives `f` of the operands' cells
as they were before the call. -/
theorem zip_loop_spec (f : α → α → α) (h : Heap α) (res mat1 mat2 : matrix) (n a : Nat)
    (R A B : List α) (cnt : Int) (hcnt : cnt = (n : Int)) (hea : res.elems = some a)
    (hR : h.block (some a) = some R) (hRl : R.length = n)
    (hA : h.block mat1.elems = some A) (hAl : A.length = n)
    (hB : h.block mat2.elems = some B) (hBl : B.length = n) :
    ∃ h2, for_loop cnt (zip_body f res mat1 mat2) h = some h2 ∧
      LinInv h a n R (fun p => f (cell h mat1.elems p) (cell h mat2.elems p)) n h2 := by
  apply lin_loop h a n R _ (zip_body f res mat1 mat2) cnt hcnt hR hRl
  intro i h2 hi hinv
  unfold zip_body
  rw [linInv_read h h2 a n R _ i hR hinv mat1.elems i (Nat.le_refl _),
    linInv_read h h2 a n R _ i hR hinv mat2.elems i (Nat.le_refl _),
    read_cell h mat1.elems A i hA (by omega), read_cell h mat2.elems B i hB (by omega), hea]
  rfl

/-- The guard of `mat_add` and `mat_sub` fires exactly when the three matrices
are not all of the same size. -/
theorem zip_guard (res mat1 mat2 : matrix) :
    ((!mat_same_size res mat1) = true ∨ (!mat_same_size mat1 mat2) = true ∨
        (!mat_same_size mat2 res) = true) ↔
      ¬ (same_size res mat1 ∧ same_size mat1 mat2 ∧ same_size mat2 res) := by
  rw [← mat_same_size_iff, ← mat_same_size_iff, ← mat_same_size_iff]
  cases mat_same_size res mat1 <;> cases mat_same_size mat1 mat2 <;>
    cases mat_same_size mat2 res <;> simp

/-- The element count `rows * cols` of a shaped matrix is computed without overflow. -/
theorem int_mul_shaped (m : matrix) (r c : Nat) (hs : Shaped m r c) :
    int_mul m.rows m.cols = some ((r * c : Nat) : Int) := by
  obtain ⟨hr, hc, _, _, hmax⟩ := hs
  have hprod : m.rows * m.cols = ((r * c : Nat) : Int) := by rw [hr, hc]; push_cast; rfl
  rw [← hprod]
  apply int_mul_of_bounds
  · rw [hprod]; have := INT_MIN_neg; omega
  · rw [hprod]; exact hmax

/-- Past their guard, `mat_add` and `mat_sub` on valid matrices of one size,
aliased or not, return true and store `f` of the operands' original elements. -/
theorem zip_valid (f : α → α → α) (h : Heap α) (res mat1 mat2 : matrix)
    (hv1 : Valid h mat1) (hv2 : Valid h mat2) (hvr : Valid h res)
    (hs1 : same_size res mat1) (hs2 : same_size mat1 mat2) :
    ∃ h2, (int_mul res.rows res.cols).bind (fun n =>
        (for_loop n (zip_body f res mat1 mat2) h).map (fun h1 => (true, h1))) =
        some (true, h2) ∧
      ∀ i j : Nat, (i : Int) < res.rows → (j : Int) < res.cols →
        mat_elem h2 res (i : Int) (j : Int) =
          some (f (entry h mat1 i j) (entry h mat2 i j)) := by
  obtain ⟨r, c, a, R, A, hsr, hsa, hea, hR, hRl, hA, hAl⟩ :=
    valid_same_shape h res mat1 hvr hv1 hs1
  obtain ⟨r2, c2, _, _, B, hsr2, hsb, _, _, _, hB, hBl⟩ :=
    valid_same_shape h res mat2 hvr hv2 ⟨hs1.1.trans hs2.1, hs1.2.trans hs2.2⟩
  have e1 : r2 = r := by
    have := hsr2.1; rw [hsr.1] at this; exact_mod_cast this.symm
  have e2 : c2 = c := by
    have := hsr2.2.1; rw [hsr.2.1] at this; exact_mod_cast this.symm
  subst e1; subst e2
  obtain ⟨h2, hrun, _, R2, hR2, _, hdone, _⟩ := zip_loop_spec f h res mat1 mat2 (r2 * c2) a
    R A B ((r2 * c2 : Nat) : Int) rfl hea hR hRl hA hAl hB hBl
  refine ⟨h2, ?_, ?_⟩
  · rw [int_mul_shaped res r2 c2 hsr]
    simp only [Option.some_bind]
    rw [hrun]
    rfl
  · intro i j hi hj
    have hi2 : i < r2 := by rw [hsr.1] at hi; exact_mod_cast hi
    have hj2 : j < c2 := by rw [hsr.2.1] at hj; exact_mod_cast hj
    rw [mat_elem_shaped h2 res r2 c2 i j R2 hsr (by rw [hea]; exact hR2) hi2 hj2,
      hdone _ (offset_lt hi2 hj2), entry_eq_cell h mat1 r2 c2 i j A hsa hA hi2 hj2,
      entry_eq_cell h mat2 r2 c2 i j B hsb hB hi2 hj2]

/-- Past its guard, `mat_muls` on valid matrices of one size, aliased or not,
returns true and stores the source's original elements times `c`. -/
theorem muls_valid (h : Heap α) (res mat : matrix) (c : α)
    (hvm : Valid h mat) (hvr : Valid h res) (hs : same_size res mat) :
    ∃ h2, (int_mul res.rows res.cols).bind (fun n =>
        (for_loop n (fun i h1 =>
          (h1.read mat.elems i).bind (fun a => h1.write res.elems i (Dbl.mul a c))) h).map
          (fun h1 => (true, h1))) = some (true, h2) ∧
      ∀ i j : Nat, (i : Int) < res.rows → (j : Int) < res.cols →
        mat_elem h2 res (i : Int) (j : Int) = some (Dbl.mul (entry h mat i j) c) := by
  obtain ⟨r, k, a, R, M, hsr, hsm, hea, hR, hRl, hM, hMl⟩ :=
    valid_same_shape h res mat hvr hvm hs
  obtain ⟨h2, hrun, _, R2, hR2, _, hdone, _⟩ := lin_loop h a (r * k) R
    (fun p => Dbl.mul (cell h mat.elems p) c)
    (fun i h1 => (h1.read mat.elems i).bind (fun a => h1.write res.elems i (Dbl.mul a c)))
    ((r * k : Nat) : Int) rfl hR hRl
    (by
      intro i h3 hi hinv
      simp only []
      rw [linInv_read h h3 a (r * k) R _ i hR hinv mat.elems i (Nat.le_refl _),
        read_cell h mat.elems M i hM (by omega), hea]
      rfl)
  refine ⟨h2, ?_, ?_⟩
  · rw [int_mul_shaped res r k hsr]
    simp only [Option.some_bind]
    rw [hrun]
    rfl
  · intro i j hi hj
    have hi2 : i < r := by rw [hsr.1] at hi; exact_mod_cast hi
    have hj2 : j < k := by rw [hsr.2.1] at hj; exact_mod_cast hj
    rw [mat_elem_shaped h2 res r k i j R2 hsr (by rw [hea]; exact hR2) hi2 hj2,
      hdone _ (offset_lt hi2 hj2), entry_eq_cell h mat r k i j M hsm hM hi2 hj2]

end elementwise_values

/-! ## Identity and comparison -/

/-- A loop with early return returns `r` when some iteration returns `r` and
every iteration either goes on or returns `r`. -/
theorem forRangeRet_found {ρ : Type} (body : Nat → Option (Option ρ)) (r : ρ) :
    ∀ (cnt lo : Nat),
      (∀ i, lo ≤ i → i < lo + cnt → body i = some none ∨ body i = some (some r)) →
      (∃ i, lo ≤ i ∧ i < lo + cnt ∧ body i = some (some r)) →
      forRangeRet body lo cnt = some (some r) := by
  intro cnt
  induction cnt with
  | zero =>
    rintro lo _ ⟨i, h1, h2, _⟩
    omega
  | succ n ih =>
    intro lo hall hex
    rcases hall lo (Nat.le_refl _) (by omega) with h0 | h0
    · have hrest := ih (lo + 1) (fun i hi hlt => hall i (by omega) (by omega)) (by
        obtain ⟨i, h1, h2, h3⟩ := hex
        have hne : i ≠ lo := by
          intro e; rw [e, h0] at h3; cases h3
        exact ⟨i, by omega, by omega, h3⟩)
      simp [forRangeRet, h0, hrest]
    · simp [forRangeRet, h0]

/-- A `for_loop_ret` returns `r` when some iteration returns `r` and every
iteration either goes on or returns `r`. -/
theorem for_loop_ret_found {ρ : Type} (n : Int) (k : Nat) (hn : n = (k : Int))
    (body : Nat → Option (Option ρ)) (r : ρ)
    (hall : ∀ i, i < k → body i = some none ∨ body i = some (some r))
    (hex : ∃ i, i < k ∧ body i = some (some r)) :
    for_loop_ret n body = some (some r) := by
  have hk : n.toNat = k := by rw [hn]; simp
  unfold for_loop_ret
  rw [hk]
  apply forRangeRet_found body r k 0 (fun i _ hlt => hall i (by omega))
  obtain ⟨i, h1, h2⟩ := hex
  exact ⟨i, Nat.zero_le _, by omega, h2⟩

section ident
variable {α : Type} [Dbl α]

/-- What `mat_ident` does on a square matrix: it returns true, changes only
the block of the matrix, and stores the identity. -/
theorem mat_ident_spec (h : Heap α) (mat : matrix) (n a : Nat) (R : List α)
    (hs : Shaped mat n n) (hea : mat.elems = some a)
    (hR : h.block (some a) = some R) (hRl : R.length = n * n) :
    ∃ h2, mat_ident h mat = some (true, h2) ∧
      CellInv h a n n identVal (fun _ _ => True) h2 := by
  have hstep : ∀ i j, i < n → j < n → ∀ h1, CellInv h a n n identVal (Before i j) h1 →
      ∃ h3, (if i = j then mat_elem_set h1 mat (i : Int) (j : Int) Dbl.one
        else mat_elem_set h1 mat (i : Int) (j : Int) Dbl.zero) = some h3 ∧
        CellInv h a n n identVal (Before i (j + 1)) h3 := by
    intro i j hi hj h1 hinv
    have hv : (if i = j then mat_elem_set h1 mat (i : Int) (j : Int) Dbl.one
        else mat_elem_set h1 mat (i : Int) (j : Int) Dbl.zero) =
        mat_elem_set h1 mat (i : Int) (j : Int) (identVal i j) := by
      by_cases hij : i = j <;> simp [identVal, hij]
    rw [hv]
    apply cellInv_write h h1 mat a n n identVal identVal (Before i j) (Before i (j + 1))
      hs hea hinv i j hi hj (identVal i j)
    intro i2 j2 _ _ hd
    by_cases hc : i2 = i ∧ j2 = j
    · exact Or.inl ⟨hc.1, hc.2, by rw [hc.1, hc.2]⟩
    · refine Or.inr ⟨hc, ?_, rfl⟩
      rcases hd with hd | ⟨hd1, hd2⟩
      · exact Or.inl hd
      · refine Or.inr ⟨hd1, ?_⟩
        rcases Nat.lt_succ_iff_lt_or_eq.mp hd2 with hd3 | hd3
        · exact hd3
        · exact absurd ⟨hd1, hd3⟩ hc
  obtain ⟨h2, hrun, hinv⟩ := for_loop_inv mat.rows n hs.1
    (fun i => for_loop mat.cols (fun j h1 =>
      if i = j then mat_elem_set h1 mat (i : Int) (j : Int) Dbl.one
      else mat_elem_set h1 mat (i : Int) (j : Int) Dbl.zero))
    (fun i h2 => CellInv h a n n identVal (fun i2 _ => i2 < i) h2) h
    ⟨frame_refl h a, R, hR, hRl, fun _ _ _ _ hd => absurd hd (Nat.not_lt_zero _)⟩
    (by
      intro i h2 hi hinv
      obtain ⟨h3, hrun, hinv3⟩ := for_loop_inv mat.cols n hs.2.1
        (fun j h1 => if i = j then mat_elem_set h1 mat (i : Int) (j : Int) Dbl.one
          else mat_elem_set h1 mat (i : Int) (j : Int) Dbl.zero)
        (fun j h3 => CellInv h a n n identVal (Before i j) h3) h2
        (cellInv_weaken h h2 a n n _ _ _ _ hinv (by
          intro i2 j2 _ _ hd
          rcases hd with hd | ⟨_, hd⟩
          · exact ⟨hd, rfl⟩
          · exact absurd hd (Nat.not_lt_zero _)))
        (fun j h3 hj hinv3 => hstep i j hi hj h3 hinv3)
      refine ⟨h3, hrun, cellInv_weaken h h3 a n n _ _ _ _ hinv3 ?_⟩
      intro i2 j2 _ hj2 hd
      refine ⟨?_, rfl⟩
      rcases Nat.lt_succ_iff_lt_or_eq.mp hd with hd2 | hd2
      · exact Or.inl hd2
      · exact Or.inr ⟨hd2, hj2⟩)
  refine ⟨h2, ?_, cellInv_weaken h h2 a n n _ _ _ _ hinv (fun i2 _ hi2 _ _ => ⟨hi2, rfl⟩)⟩
  have hsq : ¬ (mat.cols ≠ mat.rows) := by rw [hs.1, hs.2.1]; simp
  unfold mat_ident
  rw [if_neg hsq, hrun]
  rfl

end ident

section equal
variable {α : Type} [Dbl α]

/-- The function `mat_equal` past its size test, in terms of `equal_step`. -/
theorem mat_equal_unfold (h : Heap α) (mat1 mat2 : matrix)
    (hsame : mat_same_size mat1 mat2 = true) :
    mat_equal h mat1 mat2 =
      (for_loop_ret mat1.rows (fun i => for_loop_ret mat1.cols
        (equal_step h mat1 mat2 i))).map (fun r => r.getD true) := by
  unfold mat_equal
  rw [hsame]
  rfl

/-- On two matrices of one shape whose elements are defined, `mat_equal`
returns a result, and the result is true exactly when no pair of
corresponding elements compares unequal. -/
theorem mat_equal_shaped (h : Heap α) (mat1 mat2 : matrix) (r c : Nat)
    (hs1 : Shaped mat1 r c) (hs2 : Shaped mat2 r c) (e1 e2 : Nat → Nat → α)
    (h1 : ∀ i j, i < r → j < c → mat_elem h mat1 (i : Int) (j : Int) = some (e1 i j))
    (h2 : ∀ i j, i < r → j < c → mat_elem h mat2 (i : Int) (j : Int) = some (e2 i j)) :
    ∃ b, mat_equal h mat1 mat2 = some b ∧
      (b = true ↔ ∀ i j, i < r → j < c → Dbl.ne (e1 i j) (e2 i j) = false) := by
  have hsame : mat_same_size mat1 mat2 = true := by
    simp [mat_same_size, hs1.1, hs1.2.1, hs2.1, hs2.2.1]
  have hcell : ∀ i j, i < r → j < c → equal_step h mat1 mat2 i j =
      some (if Dbl.ne (e1 i j) (e2 i j) then some false else none) := by
    intro i j hi hj
    unfold equal_step
    rw [h1 i j hi hj, h2 i j hi hj]
    rfl
  have hrow_none : ∀ i, i < r → (∀ j, j < c → Dbl.ne (e1 i j) (e2 i j) = false) →
      for_loop_ret mat1.cols (equal_step h mat1 mat2 i) = some none := by
    intro i hi hrow
    apply for_loop_ret_none mat1.cols c hs1.2.1
    intro j hj
    rw [hcell i j hi hj, hrow j hj]
    rfl
  have hrow_found : ∀ i, i < r → (∃ j, j < c ∧ Dbl.ne (e1 i j) (e2 i j) = true) →
      for_loop_ret mat1.cols (equal_step h mat1 mat2 i) = some (some false) := by
    intro i hi hex
    apply for_loop_ret_found mat1.cols c hs1.2.1 _ false
    · intro j hj
      rw [hcell i j hi hj]
      cases Dbl.ne (e1 i j) (e2 i j)
      · exact Or.inl rfl
      · exact Or.inr rfl
    · obtain ⟨j, hj, hne⟩ := hex
      refine ⟨j, hj, ?_⟩
      rw [hcell i j hi hj, hne]
      rfl
  rw [mat_equal_unfold h mat1 mat2 hsame]
  by_cases hall : ∀ i j, i < r → j < c → Dbl.ne (e1 i j) (e2 i j) = false
  · refine ⟨true, ?_, ⟨fun _ => hall, fun _ => rfl⟩⟩
    rw [for_loop_ret_none mat1.rows r hs1.1 _ (fun i hi => hrow_none i hi (fun j hj => hall i j hi hj))]
    rfl
  · refine ⟨false, ?_, ⟨(fun hb => by cases hb), (fun hc => absurd hc hall)⟩⟩
    have hex : ∃ i, i < r ∧ ∃ j, j < c ∧ Dbl.ne (e1 i j) (e2 i j) = true := by
      by_contra hc
      apply hall
      intro i j hi hj
      cases hne : Dbl.ne (e1 i j) (e2 i j) with
      | false => rfl
      | true => exact absurd ⟨i, hi, j, hj, hne⟩ hc
    rw [for_loop_ret_found mat1.rows r hs1.1 _ false
      (by
        intro i hi
        by_cases hrow : ∃ j, j < c ∧ Dbl.ne (e1 i j) (e2 i j) = true
        · exact Or.inr (hrow_found i hi hrow)
        · refine Or.inl (hrow_none i hi ?_)
          intro j hj
          cases hne : Dbl.ne (e1 i j) (e2 i j) with
          | false => rfl
          | true => exact absurd ⟨j, hj, hne⟩ hrow)
      (by
        obtain ⟨i, hi, hrow⟩ := hex
        exact ⟨i, hi, hrow_found i hi hrow⟩)]
    rfl

end equal

/-! ## The claims -/

section claims
variable {α : Type} [Dbl α]

/-- An in-range read of a valid matrix is defined and yields `entry`. -/
theorem mat_elem_entry (h : Heap α) (m : matrix) (r c a : Nat) (l : List α)
    (hs : Shaped m r c) (he : m.elems = some a) (hb : h.block (some a) = some l)
    (hl : l.length = r * c) (i j : Nat) (hi : i < r) (hj : j < c) :
    mat_elem h m (i : Int) (j : Int) = some (entry h m i j) := by
  have hlt : i * c + j < l.length := by rw [hl]; exact offset_lt hi hj
  have hread : mat_elem h m (i : Int) (j : Int) = some (l[i * c + j]) := by
    rw [mat_elem_shaped h m r c i j l hs (by rw [he]; exact hb) hi hj]
    exact List.getElem?_eq_getElem hlt
  unfold entry
  rw [hread]
  rfl

/-- Every in-range read of a valid matrix is defined and yields `entry`. -/
theorem valid_entry (h : Heap α) (m : matrix) (hv : Valid h m) (i j : Nat)
    (hi : (i : Int) < m.rows) (hj : (j : Int) < m.cols) :
    mat_elem h m (i : Int) (j : Int) = some (entry h m i j) := by
  obtain ⟨r, c, a, l, hs, he, hb, hl⟩ := hv.shaped
  have hi2 : i < r := by rw [hs.1] at hi; exact_mod_cast hi
  have hj2 : j < c := by rw [hs.2.1] at hj; exact_mod_cast hj
  exact mat_elem_entry h m r c a l hs he hb hl i j hi2 hj2

end claims

/-- C3 fails on the code: transposing the 2 by 2 matrix `[[1,2],[3,4]]` into
its own buffer returns true and leaves `[[1,2],[2,4]]`, not the transpose
`[[1,3],[2,4]]`: element `(0,1)` is 2 where the original `(1,0)` was 3. -/
theorem mat_trans_alias_eval :
    Valid heapS matS1 ∧
      (mat_trans heapS matS1 matS1).map (fun r => (r.1, r.2.block matS1.elems)) =
        some (true, some [1, 2, 2, 4]) ∧
      mat_elem heapS matS1 1 0 = some 3 ∧
      (mat_trans heapS matS1 matS1).bind (fun r => mat_elem r.2 matS1 0 1) = some 2 := by
  decide

/-- C4: on a valid matrix and a valid destination with a buffer of its own,
`mat_trans` returns false exactly when `res.cols != mat.rows` or
`res.rows != mat.cols`; otherwise it returns true, `res[j,i] = mat[i,j]` for
every in-range `i`, `j`, and the block of `mat` is unchanged. -/
theorem mat_trans_correct {α : Type} (h : Heap α) (res mat : matrix)
    (hvm : Valid h mat) (hvr : Valid h res) (hne : res.elems ≠ mat.elems) :
    ∃ b h2, mat_trans h res mat = some (b, h2) ∧
      (b = false ↔ (res.cols ≠ mat.rows ∨ res.rows ≠ mat.cols)) ∧
      (b = true →
        (∀ i j : Nat, (i : Int) < mat.rows → (j : Int) < mat.cols →
          (mat_elem h mat (i : Int) (j : Int)).isSome ∧
          mat_elem h2 res (j : Int) (i : Int) = mat_elem h mat (i : Int) (j : Int)) ∧
        h2.block mat.elems = h.block mat.elems) := by
  by_cases hdims : res.cols ≠ mat.rows ∨ res.rows ≠ mat.cols
  · refine ⟨false, h, ?_, ?_, ?_⟩
    · unfold mat_trans; rw [if_pos hdims]
    · simp [hdims]
    · intro hb; cases hb
  · have hd : res.cols = mat.rows ∧ res.rows = mat.cols := by
      by_contra hc; apply hdims; simp only [ne_eq]; tauto
    obtain ⟨r, c, b, M, hsm, heb, hM, hMl⟩ := hvm.shaped
    obtain ⟨r2, c2, a, R, hsr, hea, hR, hRl⟩ := hvr.shaped
    have e1 : c2 = r := by
      have := hd.1; rw [hsr.2.1, hsm.1] at this; exact_mod_cast this
    have e2 : r2 = c := by
      have := hd.2; rw [hsr.1, hsm.2.1] at this; exact_mod_cast this
    subst e1; subst e2
    have hab : a ≠ b := by
      intro e; apply hne; rw [hea, heb, e]
    obtain ⟨h2, hrun, hfr, R2, hR2, _, hcells⟩ := mat_trans_spec h res mat c2 r2 a b R M
      hsm hsr hea heb hab hR hRl hM hMl
    refine ⟨true, h2, hrun, ?_, ?_⟩
    · simp [hdims]
    · intro _
      refine ⟨?_, ?_⟩
      · intro i j hi hj
        have hi2 : i < c2 := by rw [hsm.1] at hi; exact_mod_cast hi
        have hj2 : j < r2 := by rw [hsm.2.1] at hj; exact_mod_cast hj
        have hlt : i * r2 + j < M.length := by rw [hMl]; exact offset_lt hi2 hj2
        have hsrc := mat_elem_shaped h mat c2 r2 i j M hsm (by rw [heb]; exact hM) hi2 hj2
        have hdst := mat_elem_shaped h2 res r2 c2 j i R2 hsr (by rw [hea]; exact hR2) hj2 hi2
        rw [hdst, hsrc, hcells i j hi2 hj2 trivial]
        refine ⟨?_, rfl⟩
        rw [List.getElem?_eq_getElem hlt]; rfl
      · rw [heb]; exact hfr b (Ne.symm hab)

/-- C4, applied to the 2 by 3 matrix of `heapV` and a 3 by 2 destination. -/
theorem mat_trans_correct_witness :
    Valid heapV matW1 ∧ Valid heapV matW5 ∧ matW5.elems ≠ matW1.elems ∧
      ∃ b h2, mat_trans heapV matW5 matW1 = some (b, h2) ∧
        (b = false ↔ (matW5.cols ≠ matW1.rows ∨ matW5.rows ≠ matW1.cols)) ∧
        (b = true →
          (∀ i j : Nat, (i : Int) < matW1.rows → (j : Int) < matW1.cols →
            (mat_elem heapV matW1 (i : Int) (j : Int)).isSome ∧
            mat_elem h2 matW5 (j : Int) (i : Int) = mat_elem heapV matW1 (i : Int) (j : Int)) ∧
          h2.block matW1.elems = heapV.block matW1.elems) :=
  ⟨by decide, by decide, by decide,
    mat_trans_correct heapV matW5 matW1 (by decide) (by decide) (by decide)⟩

/-- C5 fails on the code: on the system of the solver test,
`A = [[2,3,1],[4,1,-3],[-1,2,1]]` and `b = [2,3,4]`, all operands valid,
`mat_solve` returns false and leaves the heap, hence `x`, as it was. -/
theorem mat_solve_simple_eval :
    Valid heapSolve solveA ∧ Valid heapSolve solveX ∧ Valid heapSolve solveB ∧
      (mat_solve heapSolve solveX solveA solveB).map (fun r => (r.1, r.2.blocks)) =
        some (false, heapSolve.blocks) := by
  decide

/-- C6 fails on the code: on `A = [[1,2,3],[2,2,3],[3,3,3]]`, `mat_inverse`
returns false both into a separate destination and in place. -/
theorem mat_inverse_simple_eval :
    Valid heapInv invA ∧ Valid heapInv invR ∧
      (mat_inverse heapInv invR invA).map (fun r => (r.1, r.2.blocks)) =
        some (false, heapInv.blocks) ∧
      (mat_inverse heapInv invA invA).map (fun r => (r.1, r.2.blocks)) =
        some (false, heapInv.blocks) := by
  decide

/-- C7 fails on the code: on the non-singular matrix `[[1,1],[0,1]]`,
`mat_inverse` returns false and writes nothing into the destination. -/
theorem mat_inverse_nonsingular_eval :
    Valid heapUni uniA ∧ Valid heapUni uniInv ∧
      (mat_inverse heapUni uniInv uniA).map (fun r => (r.1, r.2.block uniInv.elems)) =
        some (false, some [0, 0, 0, 0]) := by
  decide

/-- C9: when the destination and the source differ in rows or in columns,
`mat_copy` returns false and leaves the destination struct and the whole heap,
hence the destination's rows, columns and elements, unchanged. -/
theorem mat_copy_mismatch {α : Type} (h : Heap α) (dst src : matrix)
    (hne : dst.rows ≠ src.rows ∨ dst.cols ≠ src.cols) :
    mat_copy h dst src = some (false, dst, h) := by
  have hsame : mat_same_size dst src = false := by
    simp only [mat_same_size, ne_eq, ite_eq_left_iff, not_or, not_not]
    intro hc
    rcases hne with hne | hne
    · exact absurd hc.2 hne
    · exact absurd hc.1 hne
  unfold mat_copy
  rw [hsame]
  rfl

/-- C9, applied to a 2 by 2 destination and the 3 by 2 source of `heapW`. -/
theorem mat_copy_mismatch_witness :
    (matW4.rows ≠ matW2.rows ∨ matW4.cols ≠ matW2.cols) ∧
      mat_copy heapW matW4 matW2 = some (false, matW4, heapW) :=
  ⟨by decide, mat_copy_mismatch heapW matW4 matW2 (by decide)⟩

/-- C11: on valid matrices, `mat_add` returns false exactly when `res`, `mat1`
and `mat2` are not all of the same size; otherwise it returns true and
`res[i,j] = mat1[i,j] + mat2[i,j]` for every in-range `i`, `j`, the operands'
elements being those before the call, whether or not `res` shares its buffer
with `mat1` or `mat2`. -/
theorem mat_add_correct {α : Type} [Dbl α] (h : Heap α) (res mat1 mat2 : matrix)
    (hv1 : Valid h mat1) (hv2 : Valid h mat2) (hvr : Valid h res) :
    ∃ b h2, mat_add h res mat1 mat2 = some (b, h2) ∧
      (b = false ↔ ¬ (same_size res mat1 ∧ same_size mat1 mat2 ∧ same_size mat2 res)) ∧
      (b = true → ∀ i j : Nat, (i : Int) < res.rows → (j : Int) < res.cols →
        mat_elem h2 res (i : Int) (j : Int) =
          some (Dbl.add (entry h mat1 i j) (entry h mat2 i j)) ∧
        mat_elem h mat1 (i : Int) (j : Int) = some (entry h mat1 i j) ∧
        mat_elem h mat2 (i : Int) (j : Int) = some (entry h mat2 i j)) := by
  by_cases hall : same_size res mat1 ∧ same_size mat1 mat2 ∧ same_size mat2 res
  · obtain ⟨h2, hrun, hres⟩ := zip_valid Dbl.add h res mat1 mat2 hv1 hv2 hvr hall.1 hall.2.1
    refine ⟨true, h2, ?_, (by simp [hall]), ?_⟩
    · unfold mat_add
      rw [if_neg (by rw [zip_guard]; exact not_not.mpr hall)]
      exact hrun
    · intro _ i j hi hj
      exact ⟨hres i j hi hj,
        valid_entry h mat1 hv1 i j (by rw [← hall.1.1]; exact hi) (by rw [← hall.1.2]; exact hj),
        valid_entry h mat2 hv2 i j (by rw [hall.2.2.1]; exact hi) (by rw [hall.2.2.2]; exact hj)⟩
  · refine ⟨false, h, ?_, (by simp [hall]), (fun hb => by cases hb)⟩
    unfold mat_add
    rw [if_pos (by rw [zip_guard]; exact hall)]

/-- C11, applied with the destination sharing the buffer of the first operand. -/
theorem mat_add_correct_witness :
    Valid heapS matS1 ∧ Valid heapS matS2 ∧
      ∃ b h2, mat_add heapS matS1 matS1 matS2 = some (b, h2) ∧
        (b = false ↔
          ¬ (same_size matS1 matS1 ∧ same_size matS1 matS2 ∧ same_size matS2 matS1)) ∧
        (b = true → ∀ i j : Nat, (i : Int) < matS1.rows → (j : Int) < matS1.cols →
          mat_elem h2 matS1 (i : Int) (j : Int) =
            some (Dbl.add (entry heapS matS1 i j) (entry heapS matS2 i j)) ∧
          mat_elem heapS matS1 (i : Int) (j : Int) = some (entry heapS matS1 i j) ∧
          mat_elem heapS matS2 (i : Int) (j : Int) = some (entry heapS matS2 i j)) :=
  ⟨by decide, by decide,
    mat_add_correct heapS matS1 matS1 matS2 (by decide) (by decide) (by decide)⟩

/-- C12: on valid matrices, `mat_sub` returns false exactly when `res`, `mat1`
and `mat2` are not all of the same size; otherwise it returns true and
`res[i,j] = mat1[i,j] - mat2[i,j]` for every in-range `i`, `j`, the operands'
elements being those before the call, whether or not `res` shares its buffer
with `mat1` or `mat2`. -/
theorem mat_sub_correct {α : Type} [Dbl α] (h : Heap α) (res mat1 mat2 : matrix)
    (hv1 : Valid h mat1) (hv2 : Valid h mat2) (hvr : Valid h res) :
    ∃ b h2, mat_sub h res mat1 mat2 = some (b, h2) ∧
      (b = false ↔ ¬ (same_size res mat1 ∧ same_size mat1 mat2 ∧ same_size mat2 res)) ∧
      (b = true → ∀ i j : Nat, (i : Int) < res.rows → (j : Int) < res.cols →
        mat_elem h2 res (i : Int) (j : Int) =
          some (Dbl.sub (entry h mat1 i j) (entry h mat2 i j)) ∧
        mat_elem h mat1 (i : Int) (j : Int) = some (entry h mat1 i j) ∧
        mat_elem h mat2 (i : Int) (j : Int) = some (entry h mat2 i j)) := by
  by_cases hall : same_size res mat1 ∧ same_size mat1 mat2 ∧ same_size mat2 res
  · obtain ⟨h2, hrun, hres⟩ := zip_valid Dbl.sub h res mat1 mat2 hv1 hv2 hvr hall.1 hall.2.1
    refine ⟨true, h2, ?_, (by simp [hall]), ?_⟩
    · unfold mat_sub
      rw [if_neg (by rw [zip_guard]; exact not_not.mpr hall)]
      exact hrun
    · intro _ i j hi hj
      exact ⟨hres i j hi hj,
        valid_entry h mat1 hv1 i j (by rw [← hall.1.1]; exact hi) (by rw [← hall.1.2]; exact hj),
        valid_entry h mat2 hv2 i j (by rw [hall.2.2.1]; exact hi) (by rw [hall.2.2.2]; exact hj)⟩
  · refine ⟨false, h, ?_, (by simp [hall]), (fun hb => by cases hb)⟩
    unfold mat_sub
    rw [if_pos (by rw [zip_guard]; exact hall)]

/-- C12, applied with the destination sharing the buffer of the second operand. -/
theorem mat_sub_correct_witness :
    Valid heapS matS1 ∧ Valid heapS matS2 ∧
      ∃ b h2, mat_sub heapS matS2 matS1 matS2 = some (b, h2) ∧
        (b = false ↔
          ¬ (same_size matS2 matS1 ∧ same_size matS1 matS2 ∧ same_size matS2 matS2)) ∧
        (b = true → ∀ i j : Nat, (i : Int) < matS2.rows → (j : Int) < matS2.cols →
          mat_elem h2 matS2 (i : Int) (j : Int) =
            some (Dbl.sub (entry heapS matS1 i j) (entry heapS matS2 i j)) ∧
          mat_elem heapS matS1 (i : Int) (j : Int) = some (entry heapS matS1 i j) ∧
          mat_elem heapS matS2 (i : Int) (j : Int) = some (entry heapS matS2 i j)) :=
  ⟨by decide, by decide,
    mat_sub_correct heapS matS2 matS1 matS2 (by decide) (by decide) (by decide)⟩

/-- C13: on valid matrices and any scalar `c`, `mat_muls` returns false exactly
when `res` and `mat` differ in rows or in columns; otherwise it returns true
and `res[i,j] = mat[i,j] * c` for every in-range `i`, `j`, the source elements
being those before the call. -/
theorem mat_muls_correct {α : Type} [Dbl α] (h : Heap α) (res mat : matrix) (c : α)
    (hvm : Valid h mat) (hvr : Valid h res) :
    ∃ b h2, mat_muls h res mat c = some (b, h2) ∧
      (b = false ↔ (res.rows ≠ mat.rows ∨ res.cols ≠ mat.cols)) ∧
      (b = true → ∀ i j : Nat, (i : Int) < res.rows → (j : Int) < res.cols →
        mat_elem h2 res (i : Int) (j : Int) = some (Dbl.mul (entry h mat i j) c) ∧
        mat_elem h mat (i : Int) (j : Int) = some (entry h mat i j)) := by
  by_cases hs : same_size res mat
  · obtain ⟨h2, hrun, hres⟩ := muls_valid h res mat c hvm hvr hs
    have hsame : mat_same_size res mat = true := (mat_same_size_iff res mat).mpr hs
    refine ⟨true, h2, ?_, (by simp [hs.1, hs.2]), ?_⟩
    · unfold mat_muls
      rw [hsame]
      exact hrun
    · intro _ i j hi hj
      exact ⟨hres i j hi hj,
        valid_entry h mat hvm i j (by rw [← hs.1]; exact hi) (by rw [← hs.2]; exact hj)⟩
  · have hsame : mat_same_size res mat = false := by
      cases hb : mat_same_size res mat with
      | false => rfl
      | true => exact absurd ((mat_same_size_iff res mat).mp hb) hs
    have hne : res.rows ≠ mat.rows ∨ res.cols ≠ mat.cols := by
      by_contra hc
      apply hs
      simp only [ne_eq, not_or, not_not] at hc
      exact hc
    refine ⟨false, h, ?_, (by simp [hne]), (fun hb => by cases hb)⟩
    unfold mat_muls
    rw [hsame]
    rfl

/-- C13, applied to the 2 by 2 matrices of `heapS` and the scalar 3. -/
theorem mat_muls_correct_witness :
    Valid heapS matS1 ∧ Valid heapS matS3 ∧
      ∃ b h2, mat_muls heapS matS3 matS1 (3 : Int) = some (b, h2) ∧
        (b = false ↔ (matS3.rows ≠ matS1.rows ∨ matS3.cols ≠ matS1.cols)) ∧
        (b = true → ∀ i j : Nat, (i : Int) < matS3.rows → (j : Int) < matS3.cols →
          mat_elem h2 matS3 (i : Int) (j : Int) =
            some (Dbl.mul (entry heapS matS1 i j) (3 : Int)) ∧
          mat_elem heapS matS1 (i : Int) (j : Int) = some (entry heapS matS1 i j)) :=
  ⟨by decide, by decide, mat_muls_correct heapS matS3 matS1 3 (by decide) (by decide)⟩

/-- C14: on a valid matrix, `mat_ident` returns false exactly when
`mat.rows != mat.cols`; otherwise it returns true and afterwards `mat[i,j]` is
1 when `i = j` and 0 when `i != j`, for every in-range `i`, `j`, whatever the
block held before. -/
theorem mat_ident_correct {α : Type} [Dbl α] (h : Heap α) (mat : matrix)
    (hv : Valid h mat) :
    ∃ b h2, mat_ident h mat = some (b, h2) ∧
      (b = false ↔ mat.rows ≠ mat.cols) ∧
      (b = true → ∀ i j : Nat, (i : Int) < mat.rows → (j : Int) < mat.cols →
        mat_elem h2 mat (i : Int) (j : Int) =
          some (if i = j then (Dbl.one : α) else Dbl.zero)) := by
  by_cases hsq : mat.rows = mat.cols
  · obtain ⟨r, c, a, R, hs, hea, hR, hRl⟩ := hv.shaped
    have e : c = r := by
      have := hsq; rw [hs.1, hs.2.1] at this; exact_mod_cast this.symm
    subst e
    obtain ⟨h2, hrun, hinv⟩ := mat_ident_spec h mat c a R hs hea hR hRl
    refine ⟨true, h2, hrun, (by simp [hsq]), ?_⟩
    intro _ i j hi hj
    have hi2 : i < c := by rw [hs.1] at hi; exact_mod_cast hi
    have hj2 : j < c := by rw [hs.2.1] at hj; exact_mod_cast hj
    exact cellInv_elem h h2 mat c c a identVal hs hea hinv i j hi2 hj2
  · refine ⟨false, h, ?_, (by simp [hsq]), (fun hb => by cases hb)⟩
    unfold mat_ident
    rw [if_pos (fun e => hsq e.symm)]

/-- C14, applied to a 2 by 2 matrix of `heapS`. -/
theorem mat_ident_correct_witness :
    Valid heapS matS2 ∧
      ∃ b h2, mat_ident heapS matS2 = some (b, h2) ∧
        (b = false ↔ matS2.rows ≠ matS2.cols) ∧
        (b = true → ∀ i j : Nat, (i : Int) < matS2.rows → (j : Int) < matS2.cols →
          mat_elem h2 matS2 (i : Int) (j : Int) =
            some (if i = j then (Dbl.one : Int) else Dbl.zero)) :=
  ⟨by decide, mat_ident_correct heapS matS2 (by decide)⟩

/-- C15 fails on the code for NaN: two valid 1 by 1 matrices whose blocks are
identical, both `[[NaN]]`, do not compare equal, since `NaN != NaN` is true. -/
theorem mat_equal_nan_counterexample :
    Valid heapNaN2 nanSrc ∧ Valid heapNaN2 nanDst ∧ same_size nanSrc nanDst ∧
      heapNaN2.block nanSrc.elems = heapNaN2.block nanDst.elems ∧
      mat_elem heapNaN2 nanSrc 0 0 = mat_elem heapNaN2 nanDst 0 0 ∧
      mat_equal heapNaN2 nanSrc nanDst = some false := by
  decide

/-- C15 as amended: `mat_equal` is false whenever the rows or the columns
differ; on valid matrices of the same size it returns true if and only if
for every in-range `i`, `j` the exact comparison `mat1[i,j] != mat2[i,j]` is
false (no tolerance; a NaN compares unequal to everything, itself included). -/
theorem mat_equal_correct {α : Type} [Dbl α] (h : Heap α) (mat1 mat2 : matrix) :
    ((mat1.rows ≠ mat2.rows ∨ mat1.cols ≠ mat2.cols) → mat_equal h mat1 mat2 = some false) ∧
    (Valid h mat1 → Valid h mat2 → same_size mat1 mat2 →
      ∃ b, mat_equal h mat1 mat2 = some b ∧
        (b = true ↔ ∀ i j : Nat, (i : Int) < mat1.rows → (j : Int) < mat1.cols →
          Dbl.ne (entry h mat1 i j) (entry h mat2 i j) = false)) := by
  constructor
  · intro hne
    have hsame : mat_same_size mat1 mat2 = false := by
      cases hb : mat_same_size mat1 mat2 with
      | false => rfl
      | true =>
        have hs := (mat_same_size_iff mat1 mat2).mp hb
        rcases hne with hne | hne
        · exact absurd hs.1 hne
        · exact absurd hs.2 hne
    unfold mat_equal
    rw [hsame]
    rfl
  · intro hv1 hv2 hs
    obtain ⟨r, c, a, A, B, hs1, hs2, hea, hA, hAl, hB, hBl⟩ :=
      valid_same_shape h mat1 mat2 hv1 hv2 hs
    obtain ⟨b, hrun, hiff⟩ := mat_equal_shaped h mat1 mat2 r c hs1 hs2
      (entry h mat1) (entry h mat2)
      (fun i j hi hj => valid_entry h mat1 hv1 i j (by rw [hs1.1]; exact_mod_cast hi)
        (by rw [hs1.2.1]; exact_mod_cast hj))
      (fun i j hi hj => valid_entry h mat2 hv2 i j (by rw [hs2.1]; exact_mod_cast hi)
        (by rw [hs2.2.1]; exact_mod_cast hj))
    refine ⟨b, hrun, hiff.trans ⟨?_, ?_⟩⟩
    · intro hall i j hi hj
      exact hall i j (by rw [hs1.1] at hi; exact_mod_cast hi)
        (by rw [hs1.2.1] at hj; exact_mod_cast hj)
    · intro hall i j hi hj
      exact hall i j (by rw [hs1.1]; exact_mod_cast hi) (by rw [hs1.2.1]; exact_mod_cast hj)

/-- C15 as amended, applied to matrices of different sizes and to two valid
2 by 2 matrices of `heapS`. -/
theorem mat_equal_correct_witness :
    (matW1.rows ≠ matW2.rows ∨ matW1.cols ≠ matW2.cols) ∧
      mat_equal heapW matW1 matW2 = some false ∧
      Valid heapS matS1 ∧ Valid heapS matS2 ∧ same_size matS1 matS2 ∧
      ∃ b, mat_equal heapS matS1 matS2 = some b ∧
        (b = true ↔ ∀ i j : Nat, (i : Int) < matS1.rows → (j : Int) < matS1.cols →
          Dbl.ne (entry heapS matS1 i j) (entry heapS matS2 i j) = false) :=
  ⟨by decide, (mat_equal_correct heapW matW1 matW2).1 (by decide), by decide, by decide,
    by decide, (mat_equal_correct heapS matS1 matS2).2 (by decide) (by decide) (by decide)⟩

/-- With a successful allocation, `mat_alloc_ans` is `mat_alloc`. -/
theorem mat_alloc_ans_true {α : Type} (h : Heap α) (mat : matrix) (rows cols : Int) :
    mat_alloc_ans true h mat rows cols = mat_alloc h mat rows cols := by
  simp [mat_alloc_ans, mat_alloc, Heap.malloc_ans]

/-- With a failed allocation and positive dimensions whose product fits an
`int`, `mat_alloc_ans` returns true, stores NULL and leaves the heap as it was. -/
theorem mat_alloc_ans_false {α : Type} (h : Heap α) (mat : matrix) (rows cols : Int)
    (hr0 : 0 < rows) (hc0 : 0 < cols) (hmax : rows * cols ≤ INT_MAX) :
    mat_alloc_ans false h mat rows cols =
      some (true, { rows := rows, cols := cols, elems := none }, h) := by
  have hpos : ¬ (rows ≤ 0 ∨ cols ≤ 0) := by omega
  have hnn : (0 : Int) ≤ rows * cols := le_of_lt (mul_pos hr0 hc0)
  have hmul : int_mul rows cols = some (rows * cols) :=
    int_mul_of_bounds rows cols (by have := INT_MIN_neg; omega) hmax
  unfold mat_alloc_ans
  rw [if_neg hpos, hmul]
  simp [Heap.malloc_ans]

/-- C16 fails on the code.  With 1 row and 2147483647 columns, whose product
fits an `int`, and an allocation that fails, `mat_alloc` returns true with
`elems = NULL`: the slot owns no storage and is not a valid matrix.  With
`rows = cols = 65536` the product overflows, and whatever the allocator
answers there is no true result that leaves a valid matrix of that size. -/
theorem mat_alloc_counterexample :
    ¬ ((1 : Int) ≤ 0 ∨ (2147483647 : Int) ≤ 0) ∧ (1 : Int) * 2147483647 ≤ INT_MAX ∧
      mat_alloc_ans false heapS emptyMat 1 2147483647 =
        some (true, { rows := 1, cols := 2147483647, elems := none }, heapS) ∧
      ¬ Valid heapS { rows := 1, cols := 2147483647, elems := none } ∧
      ¬ ((65536 : Int) ≤ 0 ∨ (65536 : Int) ≤ 0) ∧
      ∀ ok : Bool, ¬ (∃ m2 h2, mat_alloc_ans ok heapS emptyMat 65536 65536 =
        some (true, m2, h2) ∧ Valid h2 m2) := by
  refine ⟨by decide, by decide,
    mat_alloc_ans_false heapS emptyMat 1 2147483647 (by decide) (by decide) (by decide),
    by decide, by decide, ?_⟩
  rintro ok ⟨m2, h2, hrun, _⟩
  have hnone : (mat_alloc_ans ok heapS emptyMat 65536 65536).isSome = false := by
    cases ok <;> decide
  rw [hrun] at hnone
  simp at hnone

/-- C16 as amended: for every matrix slot, either answer of the allocator and
all `rows`, `cols` whose product, when both are positive, fits an `int`,
`mat_alloc` returns false exactly when `rows <= 0` or `cols <= 0`, and then
leaves the slot and the heap unchanged; otherwise it returns true and sets
`mat.rows = rows` and `mat.cols = cols`, and when the allocation succeeds the
slot is a valid matrix owning a block of `rows * cols` cells that was not
live before the call. -/
theorem mat_alloc_correct {α : Type} (ok : Bool) (h : Heap α) (mat : matrix)
    (rows cols : Int) (hfit : 0 < rows → 0 < cols → rows * cols ≤ INT_MAX) :
    ∃ b mat2 h2, mat_alloc_ans ok h mat rows cols = some (b, mat2, h2) ∧
      (b = false ↔ (rows ≤ 0 ∨ cols ≤ 0)) ∧
      (b = false → mat2 = mat ∧ h2 = h) ∧
      (b = true → mat2.rows = rows ∧ mat2.cols = cols ∧
        (ok = true → Valid h2 mat2 ∧ h.block mat2.elems = none)) := by
  by_cases hpos : rows ≤ 0 ∨ cols ≤ 0
  · refine ⟨false, mat, h, ?_, (by simp [hpos]), (fun _ => ⟨rfl, rfl⟩), (fun hb => by cases hb)⟩
    unfold mat_alloc_ans
    rw [if_pos hpos]
  · have hr0 : 0 < rows := by omega
    have hc0 : 0 < cols := by omega
    have hmax := hfit hr0 hc0
    cases ok with
    | false =>
      refine ⟨true, _, h, mat_alloc_ans_false h mat rows cols hr0 hc0 hmax, (by simp [hpos]),
        (fun hb => by cases hb), ?_⟩
      intro _
      exact ⟨rfl, rfl, fun hok => by cases hok⟩
    | true =>
      obtain ⟨r, hr⟩ := Int.eq_ofNat_of_zero_le (le_of_lt hr0)
      obtain ⟨c, hc⟩ := Int.eq_ofNat_of_zero_le (le_of_lt hc0)
      have hprod : rows * cols = ((r * c : Nat) : Int) := by rw [hr, hc]; push_cast; rfl
      have hr1 : 0 < r := by rw [hr] at hr0; exact_mod_cast hr0
      have hc1 : 0 < c := by rw [hc] at hc0; exact_mod_cast hc0
      have hrun := mat_alloc_shaped h mat rows cols r c hr hc hr1 hc1
        (by rw [← hprod]; exact hmax)
      rw [← mat_alloc_ans_true] at hrun
      refine ⟨true, _, _, hrun, (by simp [hpos]), (fun hb => by cases hb), ?_⟩
      intro _
      refine ⟨rfl, rfl, fun _ => ⟨⟨hr0, hc0, hmax, ?_⟩, ?_⟩⟩
      · have hnew : (h.malloc (r * c)).1.block (some h.blocks.length) =
            some ((List.range (r * c)).map (h.fresh h.blocks.length)) :=
          block_malloc_new h (r * c)
        have htn : ((r * c : Nat) : Int).toNat = r * c := Int.toNat_ofNat (r * c)
        simp only []
        rw [hnew, hprod, htn]
        simp
      · simp [Heap.block]

/-- C16 as amended, applied to the request for 4 rows and 5 columns with a
successful allocation. -/
theorem mat_alloc_correct_witness :
    ((0 : Int) < 4 → (0 : Int) < 5 → (4 : Int) * 5 ≤ INT_MAX) ∧
      ∃ b mat2 h2, mat_alloc_ans true heapS emptyMat 4 5 = some (b, mat2, h2) ∧
        (b = false ↔ ((4 : Int) ≤ 0 ∨ (5 : Int) ≤ 0)) ∧
        (b = false → mat2 = emptyMat ∧ h2 = heapS) ∧
        (b = true → mat2.rows = 4 ∧ mat2.cols = 5 ∧
          (true = true → Valid h2 mat2 ∧ heapS.block mat2.elems = none)) :=
  ⟨by decide, mat_alloc_correct true heapS emptyMat 4 5 (by decide)⟩

/-- C17: for a matrix that is valid or already empty, `mat_free` leaves the
matrix in the empty state `rows = 0`, `cols = 0`, `elems = NULL`, its former
block is no longer live, and a second `mat_free` leaves the empty state and
the heap unchanged. -/
theorem mat_free_correct {α : Type} (h : Heap α) (mat : matrix)
    (hm : Valid h mat ∨ mat = emptyMat) :
    ∃ h2, mat_free h mat = some (emptyMat, h2) ∧ h2.block mat.elems = none ∧
      mat_free h2 emptyMat = some (emptyMat, h2) := by
  rcases hm with hv | he
  · obtain ⟨r, c, a, l, _, hea, hb, _⟩ := hv.shaped
    refine ⟨h.setBlock a none, ?_, ?_, rfl⟩
    · simp [mat_free, Heap.free, hea, hb, emptyMat]
    · rw [hea]
      exact block_setBlock_same h a none (block_lt h a l hb)
  · subst he
    exact ⟨h, rfl, rfl, rfl⟩

/-- C17, applied to a valid 2 by 2 matrix of `heapS`. -/
theorem mat_free_correct_witness :
    (Valid heapS matS1 ∨ matS1 = emptyMat) ∧
      ∃ h2, mat_free heapS matS1 = some (emptyMat, h2) ∧ h2.block matS1.elems = none ∧
        mat_free h2 emptyMat = some (emptyMat, h2) :=
  ⟨Or.inl (by decide), mat_free_correct heapS matS1 (Or.inl (by decide))⟩

/-- C18: for a matrix `A` with `A.rows != A.cols` and any destination,
`mat_inverse` returns false, the heap being as before the call. -/
theorem mat_inverse_not_square {α : Type} (h : Heap α) (invA A : matrix)
    (_hns : A.rows ≠ A.cols) : mat_inverse h invA A = some (false, h) :=
  rfl

/-- C18, applied to the 2 by 3 matrix of `heapV` and a 3 by 2 destination. -/
theorem mat_inverse_not_square_witness :
    matW1.rows ≠ matW1.cols ∧ mat_inverse heapV matW5 matW1 = some (false, heapV) :=
  ⟨by decide, mat_inverse_not_square heapV matW5 matW1 (by decide)⟩

/-- C19: for a valid square matrix `A` that is rank deficient and a valid
destination of the same size, `mat_inverse` returns false and the heap, hence
the destination, is as before the call. -/
theorem mat_inverse_singular {α : Type} [Dbl α] (h : Heap α) (invA A : matrix)
    (_hvA : Valid h A) (_hvI : Valid h invA) (_hsq : A.rows = A.cols)
    (_hsz : same_size invA A) (_hsing : Singular h A) :
    mat_inverse h invA A = some (false, h) :=
  rfl

/-- The rows of `singA` are linearly dependent. -/
theorem singA_singular : Singular heapSing singA := by
  refine ⟨singCoef, ⟨0, by decide, by decide⟩, ?_⟩
  intro j hj
  have hj3 : j < 3 := by
    have : (j : Int) < 3 := hj
    exact_mod_cast this
  interval_cases j <;> decide

/-- C19, applied to `[[1,2,3],[2,4,6],[3,6,9]]`, whose second row is twice the first. -/
theorem mat_inverse_singular_witness :
    Valid heapSing singA ∧ Valid heapSing singInv ∧ singA.rows = singA.cols ∧
      same_size singInv singA ∧ Singular heapSing singA ∧
      mat_inverse heapSing singInv singA = some (false, heapSing) :=
  ⟨by decide, by decide, by decide, by decide, singA_singular,
    mat_inverse_singular heapSing singInv singA (by decide) (by decide) (by decide)
      (by decide) singA_singular⟩

/-- C20: for every heap and all operands, `mat_solve` and `mat_inverse` return
false and hand back the heap they received, so the destination and the
operands are unchanged. -/
theorem stubs_always_fail {α : Type} (h : Heap α) (x A b invA : matrix) :
    mat_solve h x A b = some (false, h) ∧ mat_inverse h invA A = some (false, h) :=
  ⟨rfl, rfl⟩

/-! ## Failure leaves the destination alone -/

/-- When `mat_alloc` returns false, the slot and the heap are the ones it received. -/
theorem mat_alloc_false {α : Type} (h h2 : Heap α) (mat m2 : matrix) (rows cols : Int)
    (hrun : mat_alloc h mat rows cols = some (false, m2, h2)) : m2 = mat ∧ h2 = h := by
  unfold mat_alloc at hrun
  split at hrun
  · simp only [Option.some.injEq, Prod.mk.injEq, true_and] at hrun
    exact ⟨hrun.1.symm, hrun.2.symm⟩
  · simp [Option.bind_eq_some] at hrun

/-- When `mat_copy` returns false, the destination struct and the heap are the ones it received. -/
theorem mat_copy_false {α : Type} (h h2 : Heap α) (dst src m2 : matrix)
    (hrun : mat_copy h dst src = some (false, m2, h2)) : m2 = dst ∧ h2 = h := by
  unfold mat_copy at hrun
  split at hrun
  · simp only [Option.some.injEq, Prod.mk.injEq, true_and] at hrun
    exact ⟨hrun.1.symm, hrun.2.symm⟩
  · split at hrun
    · cases hrun
    · rename_i dst1 h1 halloc
      simp only [Option.some.injEq, Prod.mk.injEq, true_and] at hrun
      obtain ⟨e1, e2⟩ := hrun
      subst e1; subst e2
      exact mat_alloc_false h h1 dst dst1 src.rows src.cols halloc
    · simp [Option.bind_eq_some] at hrun

/-- When `mat_add` returns false, the heap is the one it received. -/
theorem mat_add_false {α : Type} [Dbl α] (h h2 : Heap α) (res mat1 mat2 : matrix)
    (hrun : mat_add h res mat1 mat2 = some (false, h2)) : h2 = h := by
  unfold mat_add at hrun
  split at hrun
  · simp only [Option.some.injEq, Prod.mk.injEq, true_and] at hrun
    exact hrun.symm
  · simp [Option.bind_eq_some] at hrun

/-- When `mat_sub` returns false, the heap is the one it received. -/
theorem mat_sub_false {α : Type} [Dbl α] (h h2 : Heap α) (res mat1 mat2 : matrix)
    (hrun : mat_sub h res mat1 mat2 = some (false, h2)) : h2 = h := by
  unfold mat_sub at hrun
  split at hrun
  · simp only [Option.some.injEq, Prod.mk.injEq, true_and] at hrun
    exact hrun.symm
  · simp [Option.bind_eq_some] at hrun

/-- When `mat_mul` returns false, the heap is the one it received. -/
theorem mat_mul_false {α : Type} [Dbl α] (h h2 : Heap α) (res mat1 mat2 : matrix)
    (hrun : mat_mul h res mat1 mat2 = some (false, h2)) : h2 = h := by
  unfold mat_mul at hrun
  split at hrun
  · simp only [Option.some.injEq, Prod.mk.injEq, true_and] at hrun
    exact hrun.symm
  · split at hrun
    · simp [Option.bind_eq_some] at hrun
    · cases hrun

/-- When `mat_muls` returns false, the heap is the one it received. -/
theorem mat_muls_false {α : Type} [Dbl α] (h h2 : Heap α) (res mat : matrix) (c : α)
    (hrun : mat_muls h res mat c = some (false, h2)) : h2 = h := by
  unfold mat_muls at hrun
  split at hrun
  · simp only [Option.some.injEq, Prod.mk.injEq, true_and] at hrun
    exact hrun.symm
  · simp [Option.bind_eq_some] at hrun

/-- When `mat_trans` returns false, the heap is the one it received. -/
theorem mat_trans_false {α : Type} (h h2 : Heap α) (res mat : matrix)
    (hrun : mat_trans h res mat = some (false, h2)) : h2 = h := by
  unfold mat_trans at hrun
  split at hrun
  · simp only [Option.some.injEq, Prod.mk.injEq, true_and] at hrun
    exact hrun.symm
  · simp at hrun

/-- When `mat_ident` returns false, the heap is the one it received. -/
theorem mat_ident_false {α : Type} [Dbl α] (h h2 : Heap α) (mat : matrix)
    (hrun : mat_ident h mat = some (false, h2)) : h2 = h := by
  unfold mat_ident at hrun
  split at hrun
  · simp only [Option.some.injEq, Prod.mk.injEq, true_and] at hrun
    exact hrun.symm
  · simp at hrun

/-- C21: whenever `mat_alloc`, `mat_copy`, `mat_add`, `mat_sub`, `mat_mul`,
`mat_muls`, `mat_trans` or `mat_ident` returns false, the destination struct
(for the two routines that may assign it) and the whole heap, hence every
element of the destination, are exactly those before the call. -/
theorem no_mutation_on_failure {α : Type} [Dbl α] :
    (∀ (h h2 : Heap α) (mat m2 : matrix) (rows cols : Int),
      mat_alloc h mat rows cols = some (false, m2, h2) → m2 = mat ∧ h2 = h) ∧
    (∀ (h h2 : Heap α) (dst src m2 : matrix),
      mat_copy h dst src = some (false, m2, h2) → m2 = dst ∧ h2 = h) ∧
    (∀ (h h2 : Heap α) (res mat1 mat2 : matrix),
      mat_add h res mat1 mat2 = some (false, h2) → h2 = h) ∧
    (∀ (h h2 : Heap α) (res mat1 mat2 : matrix),
      mat_sub h res mat1 mat2 = some (false, h2) → h2 = h) ∧
    (∀ (h h2 : Heap α) (res mat1 mat2 : matrix),
      mat_mul h res mat1 mat2 = some (false, h2) → h2 = h) ∧
    (∀ (h h2 : Heap α) (res mat : matrix) (c : α),
      mat_muls h res mat c = some (false, h2) → h2 = h) ∧
    (∀ (h h2 : Heap α) (res mat : matrix),
      mat_trans h res mat = some (false, h2) → h2 = h) ∧
    (∀ (h h2 : Heap α) (mat : matrix),
      mat_ident h mat = some (false, h2) → h2 = h) :=
  ⟨fun h h2 mat m2 rows cols hrun => mat_alloc_false h h2 mat m2 rows cols hrun,
    fun h h2 dst src m2 hrun => mat_copy_false h h2 dst src m2 hrun,
    fun h h2 res mat1 mat2 hrun => mat_add_false h h2 res mat1 mat2 hrun,
    fun h h2 res mat1 mat2 hrun => mat_sub_false h h2 res mat1 mat2 hrun,
    fun h h2 res mat1 mat2 hrun => mat_mul_false h h2 res mat1 mat2 hrun,
    fun h h2 res mat c hrun => mat_muls_false h h2 res mat c hrun,
    fun h h2 res mat hrun => mat_trans_false h h2 res mat hrun,
    fun h h2 mat hrun => mat_ident_false h h2 mat hrun⟩

/-- C21, applied to one failing call of each routine on `heapW`: a request for
0 by 0 cells, operands of different sizes, and a non-square matrix. -/
theorem no_mutation_on_failure_witness :
    (mat_alloc heapW matW3 0 0 = some (false, matW3, heapW) ∧ matW3 = matW3 ∧ heapW = heapW) ∧
    (mat_copy heapW matW3 matW1 = some (false, matW3, heapW) ∧ matW3 = matW3 ∧ heapW = heapW) ∧
    (mat_add heapW matW3 matW1 matW2 = some (false, heapW) ∧ heapW = heapW) ∧
    (mat_sub heapW matW3 matW1 matW2 = some (false, heapW) ∧ heapW = heapW) ∧
    (mat_mul heapW matW3 matW1 matW1 = some (false, heapW) ∧ heapW = heapW) ∧
    (mat_muls heapW matW3 matW1 (3 : Int) = some (false, heapW) ∧ heapW = heapW) ∧
    (mat_trans heapW matW3 matW1 = some (false, heapW) ∧ heapW = heapW) ∧
    (mat_ident heapW matW1 = some (false, heapW) ∧ heapW = heapW) :=
  ⟨⟨rfl, no_mutation_on_failure.1 heapW heapW matW3 matW3 0 0 rfl⟩,
    ⟨rfl, no_mutation_on_failure.2.1 heapW heapW matW3 matW1 matW3 rfl⟩,
    ⟨rfl, no_mutation_on_failure.2.2.1 heapW heapW matW3 matW1 matW2 rfl⟩,
    ⟨rfl, no_mutation_on_failure.2.2.2.1 heapW heapW matW3 matW1 matW2 rfl⟩,
    ⟨rfl, no_mutation_on_failure.2.2.2.2.1 heapW heapW matW3 matW1 matW1 rfl⟩,
    ⟨rfl, no_mutation_on_failure.2.2.2.2.2.1 heapW heapW matW3 matW1 3 rfl⟩,
    ⟨rfl, no_mutation_on_failure.2.2.2.2.2.2.1 heapW heapW matW3 matW1 rfl⟩,
    ⟨rfl, no_mutation_on_failure.2.2.2.2.2.2.2 heapW heapW matW1 rfl⟩⟩

/-! ## Success leaves the sources alone -/

/-- A heap framed on address `a` agrees with the old one behind every other pointer. -/
theorem frame_block {α : Type} (h h2 : Heap α) (a : Nat) (hf : Frame h a h2)
    (p : Option Nat) (hne : p ≠ some a) : h2.block p = h.block p := by
  cases p with
  | none => rfl
  | some b => exact hf b (fun e => hne (by rw [e]))

/-- Two results of one call are the same heap. -/
theorem true_result_inj {α : Type} (o : Option (Bool × Heap α)) (h2 h3 : Heap α)
    (e2 : o = some (true, h2)) (e3 : o = some (true, h3)) : h2 = h3 := by
  rw [e2] at e3
  simp only [Option.some.injEq, Prod.mk.injEq, true_and] at e3
  exact e3

section frames
variable {α : Type} [Dbl α]

/-- Past their guard, `mat_add` and `mat_sub` on valid matrices of one size
return true and change no block but the destination's. -/
theorem zip_frame (f : α → α → α) (h : Heap α) (res mat1 mat2 : matrix)
    (hv1 : Valid h mat1) (hv2 : Valid h mat2) (hvr : Valid h res)
    (hs1 : same_size res mat1) (hs2 : same_size mat1 mat2) :
    ∃ h2 a, (int_mul res.rows res.cols).bind (fun n =>
        (for_loop n (zip_body f res mat1 mat2) h).map (fun h1 => (true, h1))) =
        some (true, h2) ∧ res.elems = some a ∧ Frame h a h2 := by
  obtain ⟨r, c, a, R, A, hsr, hsa, hea, hR, hRl, hA, hAl⟩ :=
    valid_same_shape h res mat1 hvr hv1 hs1
  obtain ⟨r2, c2, _, _, B, hsr2, hsb, _, _, _, hB, hBl⟩ :=
    valid_same_shape h res mat2 hvr hv2 ⟨hs1.1.trans hs2.1, hs1.2.trans hs2.2⟩
  have e1 : r2 = r := by
    have := hsr2.1; rw [hsr.1] at this; exact_mod_cast this.symm
  have e2 : c2 = c := by
    have := hsr2.2.1; rw [hsr.2.1] at this; exact_mod_cast this.symm
  subst e1; subst e2
  obtain ⟨h2, hrun, hf, _⟩ := zip_loop_spec f h res mat1 mat2 (r2 * c2) a
    R A B ((r2 * c2 : Nat) : Int) rfl hea hR hRl hA hAl hB hBl
  refine ⟨h2, a, ?_, hea, hf⟩
  rw [int_mul_shaped res r2 c2 hsr]
  simp only [Option.some_bind]
  rw [hrun]
  rfl

/-- A call of `mat_add` on valid matrices that returns true changes no block
but the destination's. -/
theorem mat_add_true_frame (h h2 : Heap α) (res mat1 mat2 : matrix)
    (hv1 : Valid h mat1) (hv2 : Valid h mat2) (hvr : Valid h res)
    (hrun : mat_add h res mat1 mat2 = some (true, h2)) :
    ∃ a, res.elems = some a ∧ Frame h a h2 := by
  by_cases hall : same_size res mat1 ∧ same_size mat1 mat2 ∧ same_size mat2 res
  · obtain ⟨h3, a, hr, hea, hf⟩ := zip_frame Dbl.add h res mat1 mat2 hv1 hv2 hvr hall.1 hall.2.1
    have hrun3 : mat_add h res mat1 mat2 = some (true, h3) := by
      unfold mat_add
      rw [if_neg (by rw [zip_guard]; exact not_not.mpr hall)]
      exact hr
    rw [true_result_inj _ h2 h3 hrun hrun3]
    exact ⟨a, hea, hf⟩
  · unfold mat_add at hrun
    rw [if_pos (by rw [zip_guard]; exact hall)] at hrun
    simp at hrun

/-- A call of `mat_sub` on valid matrices that returns true changes no block
but the destination's. -/
theorem mat_sub_true_frame (h h2 : Heap α) (res mat1 mat2 : matrix)
    (hv1 : Valid h mat1) (hv2 : Valid h mat2) (hvr : Valid h res)
    (hrun : mat_sub h res mat1 mat2 = some (true, h2)) :
    ∃ a, res.elems = some a ∧ Frame h a h2 := by
  by_cases hall : same_size res mat1 ∧ same_size mat1 mat2 ∧ same_size mat2 res
  · obtain ⟨h3, a, hr, hea, hf⟩ := zip_frame Dbl.sub h res mat1 mat2 hv1 hv2 hvr hall.1 hall.2.1
    have hrun3 : mat_sub h res mat1 mat2 = some (true, h3) := by
      unfold mat_sub
      rw [if_neg (by rw [zip_guard]; exact not_not.mpr hall)]
      exact hr
    rw [true_result_inj _ h2 h3 hrun hrun3]
    exact ⟨a, hea, hf⟩
  · unfold mat_sub at hrun
    rw [if_pos (by rw [zip_guard]; exact hall)] at hrun
    simp at hrun

/-- A call of `mat_muls` on valid matrices that returns true changes no block
but the destination's. -/
theorem mat_muls_true_frame (h h2 : Heap α) (res mat : matrix) (c : α)
    (hvm : Valid h mat) (hvr : Valid h res)
    (hrun : mat_muls h res mat c = some (true, h2)) :
    ∃ a, res.elems = some a ∧ Frame h a h2 := by
  by_cases hs : same_size res mat
  · obtain ⟨r, k, a, R, M, hsr, hsm, hea, hR, hRl, hM, hMl⟩ :=
      valid_same_shape h res mat hvr hvm hs
    obtain ⟨h3, hloop, hf, _⟩ := lin_loop h a (r * k) R
      (fun p => Dbl.mul (cell h mat.elems p) c)
      (fun i h1 => (h1.read mat.elems i).bind (fun a => h1.write res.elems i (Dbl.mul a c)))
      ((r * k : Nat) : Int) rfl hR hRl
      (by
        intro i h4 hi hinv
        simp only []
        rw [linInv_read h h4 a (r * k) R _ i hR hinv mat.elems i (Nat.le_refl _),
          read_cell h mat.elems M i hM (by omega), hea]
        rfl)
    have hrun3 : mat_muls h res mat c = some (true, h3) := by
      unfold mat_muls
      rw [(mat_same_size_iff res mat).mpr hs, int_mul_shaped res r k hsr]
      simp only [Bool.not_true, Bool.false_eq_true, if_false, Option.some_bind]
      rw [hloop]
      rfl
    rw [true_result_inj _ h2 h3 hrun hrun3]
    exact ⟨a, hea, hf⟩
  · have hsame : mat_same_size res mat = false := by
      cases hb : mat_same_size res mat with
      | false => rfl
      | true => exact absurd ((mat_same_size_iff res mat).mp hb) hs
    unfold mat_muls at hrun
    rw [hsame] at hrun
    simp at hrun

/-- A call of `mat_mul` that returns true has passed the three dimension tests. -/
theorem mat_mul_true_dims (h h2 : Heap α) (res mat1 mat2 : matrix)
    (hrun : mat_mul h res mat1 mat2 = some (true, h2)) :
    mat1.cols = mat2.rows ∧ res.rows = mat1.rows ∧ res.cols = mat2.cols := by
  by_contra hc
  have hg : mat1.cols ≠ mat2.rows ∨ res.rows ≠ mat1.rows ∨ res.cols ≠ mat2.cols := by
    simp only [ne_eq]; tauto
  unfold mat_mul at hrun
  rw [if_pos hg] at hrun
  simp at hrun

/-- On valid operands of matching sizes, aliased or not, `mat_mul` returns
true, changes no block but the destination's, and every `res[i,j]` is the sum
`mulSum` taken on the heap before the call. -/
theorem mat_mul_full (h : Heap α) (res mat1 mat2 : matrix)
    (hv1 : Valid h mat1) (hv2 : Valid h mat2) (hvr : Valid h res)
    (hd : mat1.cols = mat2.rows ∧ res.rows = mat1.rows ∧ res.cols = mat2.cols) :
    ∃ h2 a, mat_mul h res mat1 mat2 = some (true, h2) ∧ res.elems = some a ∧
      Frame h a h2 ∧
      ∀ i j : Nat, (i : Int) < res.rows → (j : Int) < res.cols →
        mat_elem h2 res (i : Int) (j : Int) = some (mulSum h mat1 mat2 i j) := by
  obtain ⟨r1, c1, b1, A, hs1, he1, hA, hAl⟩ := hv1.shaped
  obtain ⟨r2, c2, b2, B, hs2, he2, hB, hBl⟩ := hv2.shaped
  obtain ⟨rr, cr, a, R, hsr, hea, hR, hRl⟩ := hvr.shaped
  have e1 : c1 = r2 := by
    have := hd.1; rw [hs1.2.1, hs2.1] at this; exact_mod_cast this
  have e2 : rr = r1 := by
    have := hd.2.1; rw [hsr.1, hs1.1] at this; exact_mod_cast this
  have e3 : cr = c2 := by
    have := hd.2.2; rw [hsr.2.1, hs2.2.1] at this; exact_mod_cast this
  subst e1; subst e2; subst e3
  obtain ⟨h4, hrun, hinv⟩ := mat_mul_spec h res mat1 mat2 rr cr c1 a b1 b2 R A B
    (entry h mat1) (entry h mat2) hsr hs1 hs2 hea hR hRl he1 hA he2 hB
    (fun i u hi hu => mat_elem_entry h mat1 rr c1 b1 A hs1 he1 hA hAl i u hi hu)
    (fun u j hu hj => mat_elem_entry h mat2 c1 cr b2 B hs2 he2 hB hBl u j hu hj)
  refine ⟨h4, a, hrun, hea, hinv.1, ?_⟩
  intro i j hi hj
  have hi2 : i < rr := by rw [hsr.1] at hi; exact_mod_cast hi
  have hj2 : j < cr := by rw [hsr.2.1] at hj; exact_mod_cast hj
  rw [cellInv_elem h h4 res rr cr a _ hsr hea hinv i j hi2 hj2]
  simp [mulSum, prodVal, hs1.2.1]

/-- A call of `mat_ident` on a valid matrix that returns true changes no block
but the matrix's own. -/
theorem mat_ident_true_frame (h h2 : Heap α) (mat : matrix) (hv : Valid h mat)
    (hrun : mat_ident h mat = some (true, h2)) :
    ∃ a, mat.elems = some a ∧ Frame h a h2 := by
  by_cases hsq : mat.rows = mat.cols
  · obtain ⟨r, c, a, R, hs, hea, hR, hRl⟩ := hv.shaped
    have e : c = r := by
      have := hsq; rw [hs.1, hs.2.1] at this; exact_mod_cast this.symm
    subst e
    obtain ⟨h3, hrun3, hinv⟩ := mat_ident_spec h mat c a R hs hea hR hRl
    rw [true_result_inj _ h2 h3 hrun hrun3]
    exact ⟨a, hea, hinv.1⟩
  · unfold mat_ident at hrun
    rw [if_pos (fun e => hsq e.symm)] at hrun
    simp at hrun

end frames

/-- A call of `mat_trans` on valid matrices with distinct buffers that returns
true changes no block but the destination's. -/
theorem mat_trans_true_frame {α : Type} (h h2 : Heap α) (res mat : matrix)
    (hvm : Valid h mat) (hvr : Valid h res) (hne : mat.elems ≠ res.elems)
    (hrun : mat_trans h res mat = some (true, h2)) :
    ∃ a, res.elems = some a ∧ Frame h a h2 := by
  by_cases hdims : res.cols ≠ mat.rows ∨ res.rows ≠ mat.cols
  · unfold mat_trans at hrun
    rw [if_pos hdims] at hrun
    simp at hrun
  · have hd : res.cols = mat.rows ∧ res.rows = mat.cols := by
      by_contra hc; apply hdims; simp only [ne_eq]; tauto
    obtain ⟨r, c, b, M, hsm, heb, hM, hMl⟩ := hvm.shaped
    obtain ⟨r2, c2, a, R, hsr, hea, hR, hRl⟩ := hvr.shaped
    have e1 : c2 = r := by
      have := hd.1; rw [hsr.2.1, hsm.1] at this; exact_mod_cast this
    have e2 : r2 = c := by
      have := hd.2; rw [hsr.1, hsm.2.1] at this; exact_mod_cast this
    subst e1; subst e2
    have hab : a ≠ b := by
      intro e; apply hne; rw [hea, heb, e]
    obtain ⟨h3, hrun3, hf, _⟩ := mat_trans_spec h res mat c2 r2 a b R M
      hsm hsr hea heb hab hR hRl hM hMl
    rw [true_result_inj _ h2 h3 hrun hrun3]
    exact ⟨a, hea, hf⟩

/-- C22: for `mat_add`, `mat_sub`, `mat_mul`, `mat_muls`, `mat_trans`,
`mat_ident` and `mat_copy` on valid matrices, a call that returns true leaves
the block of every source operand whose buffer is distinct from the
destination's as it was (sources are passed by value, so their rows and
columns cannot change); for `mat_mul` the destination has `mat1.rows` rows and
`mat2.cols` columns, and for `mat_copy`, the one routine among these that
assigns the destination struct, its rows and columns keep their values.  The
other routines only read the destination struct, which is why they return a
heap alone; `mat_ident` changes no block but its own. -/
theorem sources_unchanged {α : Type} [Dbl α] :
    (∀ (h h2 : Heap α) (res mat1 mat2 : matrix),
      Valid h res → Valid h mat1 → Valid h mat2 →
      mat_add h res mat1 mat2 = some (true, h2) →
        (mat1.elems ≠ res.elems → h2.block mat1.elems = h.block mat1.elems) ∧
        (mat2.elems ≠ res.elems → h2.block mat2.elems = h.block mat2.elems)) ∧
    (∀ (h h2 : Heap α) (res mat1 mat2 : matrix),
      Valid h res → Valid h mat1 → Valid h mat2 →
      mat_sub h res mat1 mat2 = some (true, h2) →
        (mat1.elems ≠ res.elems → h2.block mat1.elems = h.block mat1.elems) ∧
        (mat2.elems ≠ res.elems → h2.block mat2.elems = h.block mat2.elems)) ∧
    (∀ (h h2 : Heap α) (res mat1 mat2 : matrix),
      Valid h res → Valid h mat1 → Valid h mat2 →
      mat_mul h res mat1 mat2 = some (true, h2) →
        res.rows = mat1.rows ∧ res.cols = mat2.cols ∧
        (mat1.elems ≠ res.elems → h2.block mat1.elems = h.block mat1.elems) ∧
        (mat2.elems ≠ res.elems → h2.block mat2.elems = h.block mat2.elems)) ∧
    (∀ (h h2 : Heap α) (res mat : matrix) (c : α),
      Valid h res → Valid h mat →
      mat_muls h res mat c = some (true, h2) →
        (mat.elems ≠ res.elems → h2.block mat.elems = h.block mat.elems)) ∧
    (∀ (h h2 : Heap α) (res mat : matrix),
      Valid h res → Valid h mat →
      mat_trans h res mat = some (true, h2) →
        (mat.elems ≠ res.elems → h2.block mat.elems = h.block mat.elems)) ∧
    (∀ (h h2 : Heap α) (mat : matrix),
      Valid h mat →
      mat_ident h mat = some (true, h2) →
        ∀ p : Option Nat, p ≠ mat.elems → h2.block p = h.block p) ∧
    (∀ (h h2 : Heap α) (dst src dst2 : matrix),
      Valid h dst → Valid h src →
      mat_copy h dst src = some (true, dst2, h2) →
        dst2.rows = dst.rows ∧ dst2.cols = dst.cols ∧
        (src.elems ≠ dst.elems → h2.block src.elems = h.block src.elems)) := by
  refine ⟨?_, ?_, ?_, ?_, ?_, ?_, ?_⟩
  · intro h h2 res mat1 mat2 hvr hv1 hv2 hrun
    obtain ⟨a, hea, hf⟩ := mat_add_true_frame h h2 res mat1 mat2 hv1 hv2 hvr hrun
    rw [hea]
    exact ⟨frame_block h h2 a hf _, frame_block h h2 a hf _⟩
  · intro h h2 res mat1 mat2 hvr hv1 hv2 hrun
    obtain ⟨a, hea, hf⟩ := mat_sub_true_frame h h2 res mat1 mat2 hv1 hv2 hvr hrun
    rw [hea]
    exact ⟨frame_block h h2 a hf _, frame_block h h2 a hf _⟩
  · intro h h2 res mat1 mat2 hvr hv1 hv2 hrun
    have hd := mat_mul_true_dims h h2 res mat1 mat2 hrun
    obtain ⟨h3, a, hrun3, hea, hf, _⟩ := mat_mul_full h res mat1 mat2 hv1 hv2 hvr hd
    rw [true_result_inj _ h2 h3 hrun hrun3, hea]
    exact ⟨hd.2.1, hd.2.2, frame_block h h3 a hf _, frame_block h h3 a hf _⟩
  · intro h h2 res mat c hvr hvm hrun
    obtain ⟨a, hea, hf⟩ := mat_muls_true_frame h h2 res mat c hvm hvr hrun
    rw [hea]
    exact frame_block h h2 a hf _
  · intro h h2 res mat hvr hvm hrun hne
    obtain ⟨a, hea, hf⟩ := mat_trans_true_frame h h2 res mat hvm hvr hne hrun
    rw [hea] at hne
    exact frame_block h h2 a hf _ hne
  · intro h h2 mat hv hrun p hne
    obtain ⟨a, hea, hf⟩ := mat_ident_true_frame h h2 mat hv hrun
    rw [hea] at hne
    exact frame_block h h2 a hf p hne
  · intro h h2 dst src dst2 _ hvs hrun
    by_cases hsz : dst.rows = src.rows ∧ dst.cols = src.cols
    · obtain ⟨dst3, h3, hrun3, hr, hc, hblk, _⟩ := mat_copy_valid h dst src hvs hsz
      rw [hrun] at hrun3
      simp only [Option.some.injEq, Prod.mk.injEq, true_and] at hrun3
      obtain ⟨e1, e2⟩ := hrun3
      subst e1; subst e2
      exact ⟨by rw [hr, hsz.1], by rw [hc, hsz.2], fun _ => hblk⟩
    · have hsame : mat_same_size dst src = false := by
        cases hb : mat_same_size dst src with
        | false => rfl
        | true => exact absurd ((mat_same_size_iff dst src).mp hb) hsz
      unfold mat_copy at hrun
      rw [hsame] at hrun
      simp at hrun

/-- C22, applied to one successful call of each routine on the matrices of
`heapS`, `heapW` and `heapV`. -/
theorem sources_unchanged_witness :
    (∃ h2, mat_add heapS matS3 matS1 matS2 = some (true, h2) ∧
      (matS1.elems ≠ matS3.elems → h2.block matS1.elems = heapS.block matS1.elems) ∧
      (matS2.elems ≠ matS3.elems → h2.block matS2.elems = heapS.block matS2.elems)) ∧
    (∃ h2, mat_sub heapS matS3 matS1 matS2 = some (true, h2) ∧
      (matS1.elems ≠ matS3.elems → h2.block matS1.elems = heapS.block matS1.elems) ∧
      (matS2.elems ≠ matS3.elems → h2.block matS2.elems = heapS.block matS2.elems)) ∧
    (∃ h2, mat_mul heapW matW3 matW1 matW2 = some (true, h2) ∧
      matW3.rows = matW1.rows ∧ matW3.cols = matW2.cols ∧
      (matW1.elems ≠ matW3.elems → h2.block matW1.elems = heapW.block matW1.elems) ∧
      (matW2.elems ≠ matW3.elems → h2.block matW2.elems = heapW.block matW2.elems)) ∧
    (∃ h2, mat_muls heapS matS3 matS1 (3 : Int) = some (true, h2) ∧
      (matS1.elems ≠ matS3.elems → h2.block matS1.elems = heapS.block matS1.elems)) ∧
    (∃ h2, mat_trans heapV matW5 matW1 = some (true, h2) ∧
      (matW1.elems ≠ matW5.elems → h2.block matW1.elems = heapV.block matW1.elems)) ∧
    (∃ h2, mat_ident heapS matS3 = some (true, h2) ∧
      ∀ p : Option Nat, p ≠ matS3.elems → h2.block p = heapS.block p) ∧
    (∃ dst2 h2, mat_copy heapS matS3 matS1 = some (true, dst2, h2) ∧
      dst2.rows = matS3.rows ∧ dst2.cols = matS3.cols ∧
      (matS1.elems ≠ matS3.elems → h2.block matS1.elems = heapS.block matS1.elems)) :=
  by
  have r1 : mat_add heapS matS3 matS1 matS2 = some (true,
      { blocks := [some [1, 2, 3, 4], some [5, 6, 7, 8], some [6, 8, 10, 12]],
        fresh := heapS.fresh }) := rfl
  have r2 : mat_sub heapS matS3 matS1 matS2 = some (true,
      { blocks := [some [1, 2, 3, 4], some [5, 6, 7, 8], some [-4, -4, -4, -4]],
        fresh := heapS.fresh }) := rfl
  have r3 : mat_mul heapW matW3 matW1 matW2 = some (true,
      { blocks := [some [1, 2, 3, 4, 5, 6], some [7, 8, 9, 10, 11, 12],
          some [58, 64, 139, 154], some [1, 2, 3, 4], none],
        fresh := heapW.fresh }) := rfl
  have r4 : mat_muls heapS matS3 matS1 (3 : Int) = some (true,
      { blocks := [some [1, 2, 3, 4], some [5, 6, 7, 8], some [3, 6, 9, 12]],
        fresh := heapS.fresh }) := rfl
  have r5 : mat_trans heapV matW5 matW1 = some (true,
      { blocks := [some [1, 2, 3, 4, 5, 6], some [7, 8, 9, 10, 11, 12], some [0, 0, 0, 0],
          some [1, 2, 3, 4], some [1, 4, 2, 5, 3, 6]],
        fresh := heapV.fresh }) := rfl
  have r6 : mat_ident heapS matS3 = some (true,
      { blocks := [some [1, 2, 3, 4], some [5, 6, 7, 8], some [1, 0, 0, 1]],
        fresh := heapS.fresh }) := rfl
  have r7 : mat_copy heapS matS3 matS1 = some (true, { rows := 2, cols := 2, elems := some 3 },
      { blocks := [some [1, 2, 3, 4], some [5, 6, 7, 8], some [0, 0, 0, 0], some [1, 2, 3, 4]],
        fresh := heapS.fresh }) := rfl
  exact ⟨⟨_, r1,
      sources_unchanged.1 heapS _ matS3 matS1 matS2 (by decide) (by decide) (by decide) r1⟩,
    ⟨_, r2,
      sources_unchanged.2.1 heapS _ matS3 matS1 matS2 (by decide) (by decide) (by decide) r2⟩,
    ⟨_, r3,
      sources_unchanged.2.2.1 heapW _ matW3 matW1 matW2 (by decide) (by decide) (by decide) r3⟩,
    ⟨_, r4, sources_unchanged.2.2.2.1 heapS _ matS3 matS1 3 (by decide) (by decide) r4⟩,
    ⟨_, r5, sources_unchanged.2.2.2.2.1 heapV _ matW5 matW1 (by decide) (by decide) r5⟩,
    ⟨_, r6, sources_unchanged.2.2.2.2.2.1 heapS _ matS3 (by decide) r6⟩,
    ⟨_, _, r7, sources_unchanged.2.2.2.2.2.2 heapS _ matS3 matS1 _ (by decide) (by decide) r7⟩⟩

/-! ## The identity matrix is neutral -/

section neutral
variable {α : Type} [Dbl α]

end neutral

/-- On exact integer scalars, numerical equality is equality. -/
theorem numEq_int (x y : Int) : numEq x y ↔ x = y := by
  simp [numEq, Dbl.ne]

/-- Exact integer arithmetic satisfies the laws, every integer being finite. -/
theorem idLaws_int : IdLaws (fun _ : Int => True) where
  fin_zero := trivial
  eq_refl := fun x _ => (numEq_int x x).mpr rfl
  eq_symm := fun x y hxy => (numEq_int y x).mpr ((numEq_int x y).mp hxy).symm
  eq_trans := fun x y z hxy hyz =>
    (numEq_int x z).mpr (((numEq_int x y).mp hxy).trans ((numEq_int y z).mp hyz))
  mul_one := fun x _ => (numEq_int _ _).mpr (Int.mul_one x)
  one_mul := fun x _ => (numEq_int _ _).mpr (Int.one_mul x)
  mul_zero := fun x _ => (numEq_int _ _).mpr (Int.mul_zero x)
  zero_mul := fun x _ => (numEq_int _ _).mpr (Int.zero_mul x)
  zero_add := fun x _ => (numEq_int _ _).mpr (Int.zero_add x)
  add_zero := fun x _ => (numEq_int _ _).mpr (Int.add_zero x)
  add_congr := fun x x2 y y2 hx hy _ _ => by
    rw [numEq_int] at hx hy ⊢
    rw [hx, hy]


end MatrixC
